import Mathlib

/-!
Verification development for the rabex-env repository: a shallow embedding of
its reachability/pruning engine, scene hierarchy lookup, environment file
cache, parallel fold-reduce merging, archive-path parsing and the binary
addressables-catalog decoder, together with theorems settling the spec claims.

Modelling conventions:
* Rust machine integers are modelled as Nat/Int with explicit wrap-around
  (`% 2^w`) where the source can overflow.
* `BTreeSet`/`HashSet` values are modelled as duplicate-free lists in
  insertion order; the observable facts are memberships.
* Fallible Rust code (`Result`, panics) is modelled with `Option`/`Except`
  or explicit result inductives distinguishing panics from errors.
* Loops whose termination is not structural are given an explicit fuel
  parameter; running out of fuel is a distinguished outcome.
-/

namespace RabexEnv

/-- Path identifier within one serialized file (`PathId = i64` in rabex). -/
abbrev PathId := Int

/-- Model of `rabex::objects::PPtr`: a `(file_id, path_id)` object reference.
`m_FileID = 0` denotes a local (same-file) reference, per spec section 3. -/
structure PPtr where
  m_FileID : Int
  m_PathID : Int
deriving DecidableEq

/-- Model of `PPtr::is_local`: the pointer stays within the same file. -/
def PPtr.isLocal (p : PPtr) : Bool := p.m_FileID == 0

/-- `BTreeSet<PathId>::insert`, modelled on duplicate-free lists. -/
def insertId (l : List PathId) (x : PathId) : List PathId :=
  if x ∈ l then l else l ++ [x]

/-- `BTreeSet<PPtr>::insert`, modelled on duplicate-free lists. -/
def insertPtr (l : List PPtr) (p : PPtr) : List PPtr :=
  if p ∈ l then l else l ++ [p]

/-- The per-file object table as consumed by `reachable` (src/reachable.rs):
for each `path_id` present in the file, the list of `PPtr`s produced by the
schema-driven pointer scan (`trace_pptr::trace_pptrs_endianned`) of that
object's byte range.  `get_object_info` failing corresponds to a `none`
lookup. -/
abbrev TraceTable := List (PathId × List PPtr)

/-- Model of `SerializedFile::get_object_info` composed with the pointer
scan of the object found there. -/
def getObjectInfo : TraceTable → PathId → Option (List PPtr)
  | [], _ => none
  | (k, v) :: rest, x => if k = x then some v else getObjectInfo rest x

/-- The inner `for reachable in reachable` loop of `reachable`
(src/reachable.rs lines 29-38): scan one object's pointers, recording
non-local pointers in `externals` and newly seen local targets in both
`locals` and the queue. -/
def scanPptrs : List PPtr → List PathId → List PPtr → List PathId →
    List PathId × List PPtr × List PathId
  | [], locals, ext, newq => (locals, ext, newq)
  | p :: ps, locals, ext, newq =>
    if p.isLocal = false then
      scanPptrs ps locals (insertPtr ext p) newq
    else if p.m_PathID ∈ locals then
      scanPptrs ps locals ext newq
    else
      scanPptrs ps (insertId locals p.m_PathID) ext (newq ++ [p.m_PathID])

/-- Outcome of a `reachable` run: the BFS loop either finishes with the
`(locals, externals)` pair, panics on the `get_object_info(..).unwrap()` in
`reachable_one` (src/reachable.rs line 50), or exhausts the model's fuel. -/
inductive ReachResult where
  | outOfFuel : ReachResult
  | panicked : ReachResult
  | ok : List PathId → List PPtr → ReachResult
deriving DecidableEq

/-- The `while let Some(node) = queue.pop_front()` loop of `reachable`
(src/reachable.rs lines 25-39).  Each iteration inserts the popped node into
`locals`, looks its pointer list up (panicking when absent, as the source's
`unwrap` does) and scans it with `scanPptrs`. -/
def reachableLoop (table : TraceTable) :
    Nat → List PathId → List PathId → List PPtr → ReachResult
  | _, [], locals, ext => .ok locals ext
  | 0, _ :: _, _, _ => .outOfFuel
  | Nat.succ fuel, node :: rest, locals, ext =>
    match getObjectInfo table node with
    | none => .panicked
    | some ps =>
      let r := scanPptrs ps (insertId locals node) ext []
      reachableLoop table fuel (rest ++ r.2.2) r.1 r.2.1

/-- Model of `reachable` (src/reachable.rs lines 14-42): BFS from the root
queue with empty initial `locals`/`externals` sets. -/
def reachable (table : TraceTable) (fuel : Nat) (roots : List PathId) :
    ReachResult :=
  reachableLoop table fuel roots [] []

/-- A local pointer edge recorded in the trace table: object `y` holds a
local `PPtr` whose target is `x`. -/
def localEdge (table : TraceTable) (y x : PathId) : Prop :=
  ∃ ps, getObjectInfo table y = some ps ∧
    ∃ p ∈ ps, p.isLocal = true ∧ p.m_PathID = x

theorem mem_insertId (l : List PathId) (x y : PathId) :
    y ∈ insertId l x ↔ y ∈ l ∨ y = x := by
  unfold insertId
  split
  · constructor
    · exact fun h => Or.inl h
    · rintro (h | rfl)
      · exact h
      · assumption
  · simp [List.mem_append]

theorem self_mem_insertId (l : List PathId) (x : PathId) :
    x ∈ insertId l x := by
  rw [mem_insertId]; exact Or.inr rfl

theorem mem_of_mem_insertId_ne (l : List PathId) (x y : PathId)
    (h : y ∈ insertId l x) (hne : y ≠ x) : y ∈ l := by
  rw [mem_insertId] at h
  rcases h with h | h
  · exact h
  · exact absurd h hne

theorem mem_insertPtr (l : List PPtr) (p q : PPtr) :
    q ∈ insertPtr l p ↔ q ∈ l ∨ q = p := by
  unfold insertPtr
  split
  · constructor
    · exact fun h => Or.inl h
    · rintro (h | rfl)
      · exact h
      · assumption
  · simp [List.mem_append]

theorem getObjectInfo_isSome_of_eq (table : TraceTable) (x : PathId)
    (ps : List PPtr) (h : getObjectInfo table x = some ps) :
    (getObjectInfo table x).isSome := by
  rw [h]; rfl

theorem scanPptrs_locals_mono (ps : List PPtr) (locals : List PathId)
    (ext : List PPtr) (newq : List PathId) :
    ∀ x ∈ locals, x ∈ (scanPptrs ps locals ext newq).1 := by
  induction ps generalizing locals ext newq with
  | nil => intro x hx; exact hx
  | cons p ps ih =>
    intro x hx
    unfold scanPptrs
    split
    · exact ih locals _ newq x hx
    · split
      · exact ih locals ext newq x hx
      · exact ih _ ext _ x ((mem_insertId _ _ _).2 (Or.inl hx))

theorem scanPptrs_ext_mono (ps : List PPtr) (locals : List PathId)
    (ext : List PPtr) (newq : List PathId) :
    ∀ p ∈ ext, p ∈ (scanPptrs ps locals ext newq).2.1 := by
  induction ps generalizing locals ext newq with
  | nil => intro q hq; exact hq
  | cons p ps ih =>
    intro q hq
    unfold scanPptrs
    split
    · exact ih locals _ newq q ((mem_insertPtr _ _ _).2 (Or.inl hq))
    · split
      · exact ih locals ext newq q hq
      · exact ih _ ext _ q hq

theorem scanPptrs_locals_sub (ps : List PPtr) (locals : List PathId)
    (ext : List PPtr) (newq : List PathId) :
    ∀ x ∈ (scanPptrs ps locals ext newq).1,
      x ∈ locals ∨ (x ∉ locals ∧ ∃ p ∈ ps, p.isLocal = true ∧ p.m_PathID = x) := by
  induction ps generalizing locals ext newq with
  | nil => intro x hx; exact Or.inl hx
  | cons p ps ih =>
    intro x hx
    unfold scanPptrs at hx
    split at hx
    · rcases ih locals _ newq x hx with h | ⟨hnl, q, hq, hloc, hpid⟩
      · exact Or.inl h
      · exact Or.inr ⟨hnl, q, List.mem_cons_of_mem _ hq, hloc, hpid⟩
    · rename_i hlocal
      split at hx
      · rcases ih locals ext newq x hx with h | ⟨hnl, q, hq, hloc, hpid⟩
        · exact Or.inl h
        · exact Or.inr ⟨hnl, q, List.mem_cons_of_mem _ hq, hloc, hpid⟩
      · rcases ih _ ext _ x hx with h | ⟨hnl, q, hq, hloc, hpid⟩
        · by_cases hxp : x = p.m_PathID
          · by_cases hxl : x ∈ locals
            · exact Or.inl hxl
            · subst hxp
              refine Or.inr ⟨hxl, p, List.mem_cons_self _ _, ?_, rfl⟩
              cases hpl : p.isLocal with
              | false => exact absurd hpl (by assumption)
              | true => rfl
          · exact Or.inl (mem_of_mem_insertId_ne _ _ _ h hxp)
        · by_cases hxl : x ∈ locals
          · exact Or.inl hxl
          · exact Or.inr ⟨hxl, q, List.mem_cons_of_mem _ hq, hloc, hpid⟩

theorem scanPptrs_newq_sub (ps : List PPtr) (locals : List PathId)
    (ext : List PPtr) (newq : List PathId) :
    ∀ x ∈ (scanPptrs ps locals ext newq).2.2,
      x ∈ newq ∨ (x ∉ locals ∧ ∃ p ∈ ps, p.isLocal = true ∧ p.m_PathID = x) := by
  induction ps generalizing locals ext newq with
  | nil => intro x hx; exact Or.inl hx
  | cons p ps ih =>
    intro x hx
    unfold scanPptrs at hx
    split at hx
    · rcases ih locals _ newq x hx with h | ⟨hnl, q, hq, hloc, hpid⟩
      · exact Or.inl h
      · exact Or.inr ⟨hnl, q, List.mem_cons_of_mem _ hq, hloc, hpid⟩
    · rename_i hlocal
      split at hx
      · rcases ih locals ext newq x hx with h | ⟨hnl, q, hq, hloc, hpid⟩
        · exact Or.inl h
        · exact Or.inr ⟨hnl, q, List.mem_cons_of_mem _ hq, hloc, hpid⟩
      · rename_i hmem
        rcases ih _ ext _ x hx with h | ⟨hnl, q, hq, hloc, hpid⟩
        · rcases List.mem_append.1 h with h | h
          · exact Or.inl h
          · have hxp : x = p.m_PathID := by simpa using h
            subst hxp
            refine Or.inr ⟨hmem, p, List.mem_cons_self _ _, ?_, rfl⟩
            cases hpl : p.isLocal with
            | false => exact absurd hpl (by assumption)
            | true => rfl
        · by_cases hxl : x ∈ locals
          · exact absurd ((mem_insertId _ _ _).2 (Or.inl hxl)) hnl
          · exact Or.inr ⟨hxl, q, List.mem_cons_of_mem _ hq, hloc, hpid⟩

theorem scanPptrs_newq_locals (ps : List PPtr) (locals : List PathId)
    (ext : List PPtr) (newq : List PathId)
    (h : ∀ x ∈ newq, x ∈ locals) :
    ∀ x ∈ (scanPptrs ps locals ext newq).2.2,
      x ∈ (scanPptrs ps locals ext newq).1 := by
  induction ps generalizing locals ext newq with
  | nil => intro x hx; exact h x hx
  | cons p ps ih =>
    by_cases h1 : p.isLocal = false
    · simp only [scanPptrs, if_pos h1]
      exact ih locals _ newq h
    · by_cases h2 : p.m_PathID ∈ locals
      · simp only [scanPptrs, if_neg h1, if_pos h2]
        exact ih locals ext newq h
      · simp only [scanPptrs, if_neg h1, if_neg h2]
        refine ih _ ext _ ?_
        intro y hy
        rcases List.mem_append.1 hy with hy | hy
        · exact (mem_insertId _ _ _).2 (Or.inl (h y hy))
        · have : y = p.m_PathID := by simpa using hy
          subst this
          exact self_mem_insertId _ _

theorem scanPptrs_ext_sub (ps : List PPtr) (locals : List PathId)
    (ext : List PPtr) (newq : List PathId) :
    ∀ p ∈ (scanPptrs ps locals ext newq).2.1,
      p ∈ ext ∨ (p ∈ ps ∧ p.isLocal = false) := by
  induction ps generalizing locals ext newq with
  | nil => intro q hq; exact Or.inl hq
  | cons p ps ih =>
    intro q hq
    unfold scanPptrs at hq
    split at hq
    · rename_i hpl
      rcases ih locals _ newq q hq with h | ⟨hmem, hloc⟩
      · rcases (mem_insertPtr _ _ _).1 h with h | rfl
        · exact Or.inl h
        · exact Or.inr ⟨List.mem_cons_self _ _, hpl⟩
      · exact Or.inr ⟨List.mem_cons_of_mem _ hmem, hloc⟩
    · split at hq
      · rcases ih locals ext newq q hq with h | ⟨hmem, hloc⟩
        · exact Or.inl h
        · exact Or.inr ⟨List.mem_cons_of_mem _ hmem, hloc⟩
      · rcases ih _ ext _ q hq with h | ⟨hmem, hloc⟩
        · exact Or.inl h
        · exact Or.inr ⟨List.mem_cons_of_mem _ hmem, hloc⟩

theorem scanPptrs_newq_mono (ps : List PPtr) (locals : List PathId)
    (ext : List PPtr) (newq : List PathId) :
    ∀ x ∈ newq, x ∈ (scanPptrs ps locals ext newq).2.2 := by
  induction ps generalizing locals ext newq with
  | nil => intro x hx; exact hx
  | cons p ps ih =>
    intro x hx
    unfold scanPptrs
    split
    · exact ih locals _ newq x hx
    · split
      · exact ih locals ext newq x hx
      · exact ih _ ext _ x (List.mem_append.2 (Or.inl hx))

theorem scanPptrs_locals_newq (ps : List PPtr) (locals : List PathId)
    (ext : List PPtr) (newq : List PathId) :
    ∀ x ∈ (scanPptrs ps locals ext newq).1,
      x ∈ locals ∨ x ∈ (scanPptrs ps locals ext newq).2.2 := by
  induction ps generalizing locals ext newq with
  | nil => intro x hx; exact Or.inl hx
  | cons p ps ih =>
    by_cases h1 : p.isLocal = false
    · simp only [scanPptrs, if_pos h1]
      exact ih locals _ newq
    · by_cases h2 : p.m_PathID ∈ locals
      · simp only [scanPptrs, if_neg h1, if_pos h2]
        exact ih locals ext newq
      · simp only [scanPptrs, if_neg h1, if_neg h2]
        intro x hx
        rcases ih _ ext _ x hx with h | h
        · rcases (mem_insertId _ _ _).1 h with h | rfl
          · exact Or.inl h
          · exact Or.inr (scanPptrs_newq_mono _ _ _ _ _
              (List.mem_append.2 (Or.inr (List.mem_singleton.2 rfl))))
        · exact Or.inr h

theorem getObjectInfo_mem (table : TraceTable) (x : PathId) (ps : List PPtr)
    (h : getObjectInfo table x = some ps) : (x, ps) ∈ table := by
  induction table with
  | nil => simp [getObjectInfo] at h
  | cons e rest ih =>
    unfold getObjectInfo at h
    split at h
    · rename_i heq
      cases h
      cases e
      simp_all
    · exact List.mem_cons_of_mem _ (ih h)

theorem reachableLoop_ok_mono (table : TraceTable) :
    ∀ fuel q locals ext L E,
      reachableLoop table fuel q locals ext = .ok L E →
      (∀ x ∈ locals, x ∈ L) ∧ ∀ x ∈ q, x ∈ L := by
  intro fuel
  induction fuel with
  | zero =>
    intro q locals ext L E h
    cases q with
    | nil =>
      simp only [reachableLoop, ReachResult.ok.injEq] at h
      refine ⟨fun x hx => ?_, fun x hx => absurd hx (List.not_mem_nil x)⟩
      rw [← h.1]; exact hx
    | cons node rest => simp [reachableLoop] at h
  | succ fuel ih =>
    intro q locals ext L E h
    cases q with
    | nil =>
      simp only [reachableLoop, ReachResult.ok.injEq] at h
      refine ⟨fun x hx => ?_, fun x hx => absurd hx (List.not_mem_nil x)⟩
      rw [← h.1]; exact hx
    | cons node rest =>
      simp only [reachableLoop] at h
      cases hinfo : getObjectInfo table node with
      | none => rw [hinfo] at h; simp at h
      | some ps =>
        rw [hinfo] at h
        simp only at h
        have hrec := ih _ _ _ _ _ h
        constructor
        · intro x hx
          exact hrec.1 x (scanPptrs_locals_mono _ _ _ _ x
            ((mem_insertId _ _ _).2 (Or.inl hx)))
        · intro x hx
          rcases List.mem_cons.1 hx with rfl | hx
          · exact hrec.1 x (scanPptrs_locals_mono _ _ _ _ x (self_mem_insertId _ _))
          · exact hrec.2 x (List.mem_append.2 (Or.inl hx))

theorem reachableLoop_ok_dom (table : TraceTable) :
    ∀ fuel q locals ext L E,
      (∀ x ∈ locals, (getObjectInfo table x).isSome ∨ x ∈ q) →
      reachableLoop table fuel q locals ext = .ok L E →
      ∀ x ∈ L, (getObjectInfo table x).isSome := by
  intro fuel
  induction fuel with
  | zero =>
    intro q locals ext L E hinv h
    cases q with
    | nil =>
      simp only [reachableLoop, ReachResult.ok.injEq] at h
      intro x hx
      rw [← h.1] at hx
      rcases hinv x hx with h' | h'
      · exact h'
      · exact absurd h' (List.not_mem_nil x)
    | cons node rest => simp [reachableLoop] at h
  | succ fuel ih =>
    intro q locals ext L E hinv h
    cases q with
    | nil =>
      simp only [reachableLoop, ReachResult.ok.injEq] at h
      intro x hx
      rw [← h.1] at hx
      rcases hinv x hx with h' | h'
      · exact h'
      · exact absurd h' (List.not_mem_nil x)
    | cons node rest =>
      simp only [reachableLoop] at h
      cases hinfo : getObjectInfo table node with
      | none => rw [hinfo] at h; simp at h
      | some ps =>
        rw [hinfo] at h
        simp only at h
        refine ih _ _ _ _ _ ?_ h
        intro x hx
        rcases scanPptrs_locals_newq _ _ _ _ x hx with hx' | hx'
        · rcases (mem_insertId _ _ _).1 hx' with hx' | rfl
          · rcases hinv x hx' with h' | h'
            · exact Or.inl h'
            · rcases List.mem_cons.1 h' with rfl | h'
              · exact Or.inl (getObjectInfo_isSome_of_eq _ _ _ hinfo)
              · exact Or.inr (List.mem_append.2 (Or.inl h'))
          · exact Or.inl (getObjectInfo_isSome_of_eq _ _ _ hinfo)
        · exact Or.inr (List.mem_append.2 (Or.inr hx'))

theorem reachableLoop_ok_orphan (table : TraceTable) (R : List PathId) :
    ∀ fuel q locals ext L E,
      (∀ x, x ∈ locals ∨ x ∈ q →
        x ∈ R ∨ ∃ y, y ∈ locals ∧ y ≠ x ∧ localEdge table y x) →
      reachableLoop table fuel q locals ext = .ok L E →
      ∀ x ∈ L, x ∈ R ∨ ∃ y, y ∈ L ∧ y ≠ x ∧ localEdge table y x := by
  intro fuel
  induction fuel with
  | zero =>
    intro q locals ext L E hinv h
    cases q with
    | nil =>
      simp only [reachableLoop, ReachResult.ok.injEq] at h
      intro x hx
      rw [← h.1] at hx
      rcases hinv x (Or.inl hx) with h' | ⟨y, hy, hne, he⟩
      · exact Or.inl h'
      · exact Or.inr ⟨y, by rw [← h.1]; exact hy, hne, he⟩
    | cons node rest => simp [reachableLoop] at h
  | succ fuel ih =>
    intro q locals ext L E hinv h
    cases q with
    | nil =>
      simp only [reachableLoop, ReachResult.ok.injEq] at h
      intro x hx
      rw [← h.1] at hx
      rcases hinv x (Or.inl hx) with h' | ⟨y, hy, hne, he⟩
      · exact Or.inl h'
      · exact Or.inr ⟨y, by rw [← h.1]; exact hy, hne, he⟩
    | cons node rest =>
      simp only [reachableLoop] at h
      cases hinfo : getObjectInfo table node with
      | none => rw [hinfo] at h; simp at h
      | some ps =>
        rw [hinfo] at h
        simp only at h
        refine ih _ _ _ _ _ ?_ h
        have hnode : node ∈ (scanPptrs ps (insertId locals node) ext []).1 :=
          scanPptrs_locals_mono _ _ _ _ node (self_mem_insertId _ _)
        have upgrade : ∀ y, y ∈ locals →
            y ∈ (scanPptrs ps (insertId locals node) ext []).1 := by
          intro y hy
          exact scanPptrs_locals_mono _ _ _ _ y ((mem_insertId _ _ _).2 (Or.inl hy))
        have fresh : ∀ x, x ∉ insertId locals node →
            (∃ p ∈ ps, p.isLocal = true ∧ p.m_PathID = x) →
            x ∈ R ∨ ∃ y, y ∈ (scanPptrs ps (insertId locals node) ext []).1 ∧
              y ≠ x ∧ localEdge table y x := by
          intro x hnotin ⟨p, hp, hploc, hppid⟩
          refine Or.inr ⟨node, hnode, ?_, ps, hinfo, p, hp, hploc, hppid⟩
          intro heq
          exact hnotin (heq ▸ self_mem_insertId locals node)
        intro x hx
        rcases hx with hx | hx
        · rcases scanPptrs_locals_sub _ _ _ _ x hx with hx' | ⟨hnotin, hnew⟩
          · rcases (mem_insertId _ _ _).1 hx' with hx' | rfl
            · rcases hinv x (Or.inl hx') with h' | ⟨y, hy, hne, he⟩
              · exact Or.inl h'
              · exact Or.inr ⟨y, upgrade y hy, hne, he⟩
            · rcases hinv x (Or.inr (List.mem_cons_self _ _)) with h' | ⟨y, hy, hne, he⟩
              · exact Or.inl h'
              · exact Or.inr ⟨y, upgrade y hy, hne, he⟩
          · exact fresh x hnotin hnew
        · rcases List.mem_append.1 hx with hx | hx
          · rcases hinv x (Or.inr (List.mem_cons_of_mem _ hx)) with h' | ⟨y, hy, hne, he⟩
            · exact Or.inl h'
            · exact Or.inr ⟨y, upgrade y hy, hne, he⟩
          · rcases scanPptrs_newq_sub _ _ _ _ x hx with hx' | ⟨hnotin, hnew⟩
            · exact absurd hx' (List.not_mem_nil x)
            · exact fresh x hnotin hnew

theorem reachableLoop_ok_ext (table : TraceTable) :
    ∀ fuel q locals ext L E,
      (∀ p ∈ ext, p.isLocal = false) →
      reachableLoop table fuel q locals ext = .ok L E →
      ∀ p ∈ E, p.isLocal = false := by
  intro fuel
  induction fuel with
  | zero =>
    intro q locals ext L E hinv h
    cases q with
    | nil =>
      simp only [reachableLoop, ReachResult.ok.injEq] at h
      intro p hp
      rw [← h.2] at hp
      exact hinv p hp
    | cons node rest => simp [reachableLoop] at h
  | succ fuel ih =>
    intro q locals ext L E hinv h
    cases q with
    | nil =>
      simp only [reachableLoop, ReachResult.ok.injEq] at h
      intro p hp
      rw [← h.2] at hp
      exact hinv p hp
    | cons node rest =>
      simp only [reachableLoop] at h
      cases hinfo : getObjectInfo table node with
      | none => rw [hinfo] at h; simp at h
      | some ps =>
        rw [hinfo] at h
        simp only at h
        refine ih _ _ _ _ _ ?_ h
        intro p hp
        rcases scanPptrs_ext_sub _ _ _ _ p hp with h' | ⟨_, h'⟩
        · exact hinv p h'
        · exact h'

theorem reachableLoop_panics (table : TraceTable) :
    ∀ i q r, q.get? i = some r → getObjectInfo table r = none →
      ∀ fuel, i < fuel → ∀ locals ext,
        reachableLoop table fuel q locals ext = .panicked := by
  intro i
  induction i with
  | zero =>
    intro q r hget hnone fuel hfuel locals ext
    cases q with
    | nil => simp at hget
    | cons a rest =>
      have ha : a = r := by simpa using hget
      subst ha
      cases fuel with
      | zero => exact absurd hfuel (by simp)
      | succ fuel =>
        simp only [reachableLoop]
        rw [hnone]
  | succ i ih =>
    intro q r hget hnone fuel hfuel locals ext
    cases q with
    | nil => simp at hget
    | cons a rest =>
      have hget' : rest.get? i = some r := by simpa using hget
      cases fuel with
      | zero => exact absurd hfuel (by simp)
      | succ fuel =>
        simp only [reachableLoop]
        cases hinfo : getObjectInfo table a with
        | none => rfl
        | some ps =>
          simp only
          have hlen : i < rest.length := by
            rcases List.get?_eq_some.1 hget' with ⟨hl, _⟩
            exact hl
          refine ih _ r ?_ hnone fuel (Nat.lt_of_succ_lt_succ hfuel) _ _
          rw [List.get?_append hlen]
          exact hget'

theorem reachableLoop_no_panic (table : TraceTable)
    (hclosed : ∀ e ∈ table, ∀ p ∈ e.2, p.isLocal = true →
      (getObjectInfo table p.m_PathID).isSome) :
    ∀ fuel q locals ext,
      (∀ x ∈ q, (getObjectInfo table x).isSome) →
      reachableLoop table fuel q locals ext ≠ .panicked := by
  intro fuel
  induction fuel with
  | zero =>
    intro q locals ext _
    cases q with
    | nil => simp [reachableLoop]
    | cons a rest => simp [reachableLoop]
  | succ fuel ih =>
    intro q locals ext hq
    cases q with
    | nil => simp [reachableLoop]
    | cons node rest =>
      simp only [reachableLoop]
      cases hinfo : getObjectInfo table node with
      | none =>
        have := hq node (List.mem_cons_self _ _)
        rw [hinfo] at this
        simp at this
      | some ps =>
        simp only
        refine ih _ _ _ ?_
        intro x hx
        rcases List.mem_append.1 hx with hx | hx
        · exact hq x (List.mem_cons_of_mem _ hx)
        · rcases scanPptrs_newq_sub _ _ _ _ x hx with hx' | ⟨_, p, hp, hploc, hppid⟩
          · exact absurd hx' (List.not_mem_nil x)
          · rw [← hppid]
            exact hclosed _ (getObjectInfo_mem _ _ _ hinfo) p hp hploc

/-- Claim C1: for a single-file reachability traversal whose roots and
locally-pointed-to ids all exist in the file's object table, a completed
`reachable(R)` run returns a `locals` set that contains every root, lies
inside the file's object-id set, has no orphans (every non-root member is
the target of a local pointer from a different member of `locals`), and an
`externals` set containing only non-local pointers (externals are recorded,
never expanded). -/
theorem reachable_confinement (table : TraceTable) (roots : List PathId)
    (fuel : Nat) (L : List PathId) (E : List PPtr)
    (hroots : ∀ r ∈ roots, (getObjectInfo table r).isSome)
    (hclosed : ∀ e ∈ table, ∀ p ∈ e.2, p.isLocal = true →
      (getObjectInfo table p.m_PathID).isSome)
    (hrun : reachable table fuel roots = .ok L E) :
    (∀ r ∈ roots, r ∈ L) ∧
    (∀ x ∈ L, (getObjectInfo table x).isSome) ∧
    (∀ x ∈ L, x ∉ roots → ∃ y, y ∈ L ∧ y ≠ x ∧ localEdge table y x) ∧
    (∀ p ∈ E, p.isLocal = false) := by
  unfold reachable at hrun
  refine ⟨(reachableLoop_ok_mono table fuel roots [] [] L E hrun).2, ?_, ?_, ?_⟩
  · refine reachableLoop_ok_dom table fuel roots [] [] L E ?_ hrun
    intro x hx
    exact absurd hx (List.not_mem_nil x)
  · intro x hx hxroots
    have hbase : ∀ y, y ∈ ([] : List PathId) ∨ y ∈ roots →
        y ∈ roots ∨ ∃ z, z ∈ ([] : List PathId) ∧ z ≠ y ∧ localEdge table z y := by
      intro y hy
      rcases hy with hy | hy
      · exact absurd hy (List.not_mem_nil y)
      · exact Or.inl hy
    rcases reachableLoop_ok_orphan table roots fuel roots [] [] L E hbase hrun x hx
        with h | h
    · exact absurd h hxroots
    · exact h
  · refine reachableLoop_ok_ext table fuel roots [] [] L E ?_ hrun
    intro p hp
    exact absurd hp (List.not_mem_nil p)

/-- Concrete trace table used by the reachability witnesses:
object 1 points locally at object 2, which has no pointers, and object 4
additionally holds an external pointer. -/
def tableW : TraceTable :=
  [(1, [PPtr.mk 0 2]), (2, [])]

theorem reachable_confinement_witness :
    (1 : PathId) ∈ ([1, 2] : List PathId) ∧ (getObjectInfo tableW 2).isSome :=
  ⟨(reachable_confinement tableW [1] 3 [1, 2] [] (by decide) (by decide)
      (by decide)).1 1 (by decide),
   (reachable_confinement tableW [1] 3 [1, 2] [] (by decide) (by decide)
      (by decide)).2.1 2 (by decide)⟩

/-- Claim C9 (implicit): `reachable_one` looks object info up with an
unchecked `unwrap`, so `reachable` panics (instead of erroring) whenever a
root — or any locally-pointed-to id enqueued during traversal — is missing
from the object table; under the precondition that every root and every
local pointer target exists in the table, the panic branch is unreachable,
and any completed run only ever visited ids present in the table. -/
theorem reachable_unwrap_panics (table : TraceTable) (roots : List PathId) :
    (∀ i r, roots.get? i = some r → getObjectInfo table r = none →
      ∀ fuel, i < fuel → reachable table fuel roots = .panicked) ∧
    ((∀ e ∈ table, ∀ p ∈ e.2, p.isLocal = true →
        (getObjectInfo table p.m_PathID).isSome) →
      (∀ r ∈ roots, (getObjectInfo table r).isSome) →
      ∀ fuel, reachable table fuel roots ≠ .panicked) ∧
    (∀ fuel L E, reachable table fuel roots = .ok L E →
      ∀ x ∈ L, (getObjectInfo table x).isSome) := by
  refine ⟨?_, ?_, ?_⟩
  · intro i r hget hnone fuel hfuel
    exact reachableLoop_panics table i roots r hget hnone fuel hfuel [] []
  · intro hclosed hroots fuel
    exact reachableLoop_no_panic table hclosed fuel roots [] [] hroots
  · intro fuel L E hrun
    refine reachableLoop_ok_dom table fuel roots [] [] L E ?_ hrun
    intro x hx
    exact absurd hx (List.not_mem_nil x)

theorem reachable_unwrap_panics_witness :
    reachable [] 1 [5] = .panicked ∧
    (reachable tableW 3 [1] ≠ .panicked) :=
  ⟨(reachable_unwrap_panics [] [5]).1 0 5 rfl rfl 1 (by decide),
   (reachable_unwrap_panics tableW [1]).2.1 (by decide) (by decide) 3⟩

/-- Unity class identifiers (numeric values of the rabex `ClassId` variants
used by this development). -/
abbrev ClassId := Int

def classIdGameObject : ClassId := 1

def classIdTransform : ClassId := 4

def classIdRenderSettings : ClassId := 104

def classIdLightmapSettings : ClassId := 157

def classIdNavMeshSettings : ClassId := 196

/-- Model of `unity::types::Transform` (src/unity/types.rs).  The four
float-valued fields (`m_LocalRotation`, `m_LocalPosition`, `m_LocalScale`)
are omitted: floating point is outside the shallow embedding and no claim
mentions them. -/
structure Transform where
  m_GameObject : PPtr
  m_Children : List PPtr
  m_Father : PPtr
deriving DecidableEq

/-- Model of `unity::types::GameObject` (src/unity/types.rs), with the
component pairs flattened to their pointers. -/
structure GameObject where
  m_Component : List PPtr
  m_Layer : Nat
  m_Name : String
  m_Tag : Nat
  m_IsActive : Bool
deriving DecidableEq

/-- Model of `TypedPPtr::optional` (rabex; spec section 4.5): a local null
pointer (`file_id = 0`, `path_id = 0`) is `None`. -/
def pptrOptional (p : PPtr) : Option PPtr :=
  if p.m_FileID = 0 ∧ p.m_PathID = 0 then none else some p

/-- Association lookup by path id, used to model `deref_local` reads of
typed objects out of a file's object table. -/
def lookupPid {α : Type} : List (PathId × α) → PathId → Option α
  | [], _ => none
  | (k, v) :: rest, x => if k = x then some v else lookupPid rest x

/-- Model of one serialized file as consumed by the pruning engine and the
scene lookup: the flat object table (`path_id`, class id), the typed reads
of its Transform and GameObject objects, and the pointer-scan table driving
`reachable`.  The byte-level decoding behind these views is the wrapped
rabex library (out of scope per spec section 2). -/
structure SFile where
  objects : List (PathId × ClassId)
  transforms : List (PathId × Transform)
  gameObjects : List (PathId × GameObject)
  traces : TraceTable

/-- Model of `scene_lookup::RootLookup`. -/
inductive RootLookup where
  | ambiguous (items : List Nat)
  | root (index : Nat)
deriving DecidableEq

/-- Model of `SceneLookup` (src/scene_lookup.rs): the root transforms in
object-table order plus the root-name table. -/
structure SceneLookup where
  roots : List (PathId × Transform)
  rootsLookup : List (String × RootLookup)
deriving DecidableEq

/-- The `roots_lookup.entry(go.m_Name)` update of `SceneLookup::new`
(src/scene_lookup.rs lines 41-47): a vacant name maps to `Root(index)`; an
occupied `Ambiguous` pushes the new index; an occupied `Root` is replaced
by `Ambiguous(vec![index])` (the original index is dropped, as in the
source). -/
def updateRootsLookup : List (String × RootLookup) → String → Nat →
    List (String × RootLookup)
  | [], name, index => [(name, .root index)]
  | (k, v) :: rest, name, index =>
    if k = name then
      match v with
      | .ambiguous items => (k, .ambiguous (items ++ [index])) :: rest
      | .root _ => (k, .ambiguous [index]) :: rest
    else (k, v) :: updateRootsLookup rest name index

def findRootsLookup : List (String × RootLookup) → String → Option RootLookup
  | [], _ => none
  | (k, v) :: rest, name => if k = name then some v else findRootsLookup rest name

/-- The loop body of `SceneLookup::new` (src/scene_lookup.rs lines 27-48):
keep the transforms whose father pointer is null as roots, read the owning
GameObject's name and extend the root-name table.  `none` models a failed
`deref_local`/`read`. -/
def buildSceneLookup (file : SFile) : List (PathId × Transform) →
    List (PathId × Transform) → List (String × RootLookup) → Option SceneLookup
  | [], roots, lookup => some ⟨roots, lookup⟩
  | (pid, t) :: rest, roots, lookup =>
    if (pptrOptional t.m_Father).isSome then
      buildSceneLookup file rest roots lookup
    else
      match lookupPid file.gameObjects t.m_GameObject.m_PathID with
      | none => none
      | some go =>
        buildSceneLookup file rest (roots ++ [(pid, t)])
          (updateRootsLookup lookup go.m_Name roots.length)

/-- Model of `SceneLookup::new`. -/
def sceneLookupNew (file : SFile) : Option SceneLookup :=
  buildSceneLookup file file.transforms [] []

/-- Outcome of `SceneLookup::lookup_path`: a propagated error, the
`todo!()` panic hit on an ambiguous root name (src/scene_lookup.rs line
74), or the `Ok` result. -/
inductive LookupOutcome where
  | errored : LookupOutcome
  | todoPanic : LookupOutcome
  | found : Option (PathId × Transform) → LookupOutcome
deriving DecidableEq

def splitPathAux : List Char → List Char → List String
  | [], acc => [String.mk acc]
  | c :: cs, acc =>
    if c = '/' then String.mk acc :: splitPathAux cs []
    else splitPathAux cs (acc ++ [c])

/-- `path.split('/')` of `lookup_path`: split on every slash, keeping empty
segments, one segment for the empty string. -/
def splitPath (path : String) : List String := splitPathAux path.data []

/-- Children of one candidate transform whose GameObject name matches the
segment (`for child_pptr in &current.1.m_Children`, src/scene_lookup.rs
lines 83-93). -/
def expandChildren (file : SFile) (seg : String) : List PPtr →
    Option (List (PathId × Transform))
  | [] => some []
  | c :: cs =>
    match lookupPid file.transforms c.m_PathID with
    | none => none
    | some child =>
      match lookupPid file.gameObjects child.m_GameObject.m_PathID with
      | none => none
      | some go =>
        match expandChildren file seg cs with
        | none => none
        | some rest =>
          some (if go.m_Name = seg then (c.m_PathID, child) :: rest else rest)

/-- One `for segment in segments` round over the whole candidate set. -/
def expandSegment (file : SFile) (seg : String) :
    List (PathId × Transform) → Option (List (PathId × Transform))
  | [] => some []
  | (_, t) :: ts =>
    match expandChildren file seg t.m_Children with
    | none => none
    | some here =>
      match expandSegment file seg ts with
      | none => none
      | some rest => some (here ++ rest)

/-- The segment loop plus the final `current.pop()` of `lookup_path`
(src/scene_lookup.rs lines 80-107); an empty candidate set short-circuits
to not-found, and multiple survivors resolve to the last one (after an
advisory message). -/
def lookupSegments (file : SFile) : List String → List (PathId × Transform) →
    LookupOutcome
  | [], current => .found current.getLast?
  | seg :: rest, current =>
    match expandSegment file seg current with
    | none => .errored
    | some next =>
      if next.isEmpty then .found none else lookupSegments file rest next

/-- Model of `SceneLookup::lookup_path` (src/scene_lookup.rs lines 64-108).
An ambiguous root name hits the source's `todo!()`; an out-of-range root
index (impossible for tables built by `sceneLookupNew`) is folded into
`errored`. -/
def lookupPath (file : SFile) (lk : SceneLookup) (path : String) :
    LookupOutcome :=
  match splitPath path with
  | [] => .found none
  | rootName :: rest =>
    match findRootsLookup lk.rootsLookup rootName with
    | some (.ambiguous _) => .todoPanic
    | none => .found none
    | some (.root index) =>
      match lk.roots.get? index with
      | none => .errored
      | some root => lookupSegments file rest [root]

/-- Claim C6 (amended): a `lookup_path` whose first segment is missing from
the root-name table returns not-found, but a first segment marked ambiguous
(two or more roots sharing the GameObject name) hits the `todo!()` panic
instead of returning not-found. -/
theorem lookup_path_missing_and_ambiguous (file : SFile) (lk : SceneLookup)
    (path : String) (rootName : String) (rest : List String)
    (hsplit : splitPath path = rootName :: rest) :
    (findRootsLookup lk.rootsLookup rootName = none →
      lookupPath file lk path = .found none) ∧
    (∀ items, findRootsLookup lk.rootsLookup rootName = some (.ambiguous items) →
      lookupPath file lk path = .todoPanic) := by
  constructor
  · intro hfind
    unfold lookupPath
    rw [hsplit]
    simp only [hfind]
  · intro items hfind
    unfold lookupPath
    rw [hsplit]
    simp only [hfind]

/-- Scene with two roots both named "Enemy", used to exercise the ambiguous
branch of `lookup_path`. -/
def sceneAmb : SFile where
  objects := [(1, classIdTransform), (2, classIdTransform),
    (10, classIdGameObject), (20, classIdGameObject)]
  transforms := [(1, Transform.mk (PPtr.mk 0 10) [] (PPtr.mk 0 0)),
    (2, Transform.mk (PPtr.mk 0 20) [] (PPtr.mk 0 0))]
  gameObjects := [(10, GameObject.mk [PPtr.mk 0 1] 0 "Enemy" 0 true),
    (20, GameObject.mk [PPtr.mk 0 2] 0 "Enemy" 0 true)]
  traces := [(1, [PPtr.mk 0 10]), (2, [PPtr.mk 0 20]),
    (10, [PPtr.mk 0 1]), (20, [PPtr.mk 0 2])]

/-- The `SceneLookup` built for `sceneAmb`. -/
def lkAmb : SceneLookup where
  roots := [(1, Transform.mk (PPtr.mk 0 10) [] (PPtr.mk 0 0)),
    (2, Transform.mk (PPtr.mk 0 20) [] (PPtr.mk 0 0))]
  rootsLookup := [("Enemy", .ambiguous [1])]

/-- Claim C6 counterexample: on a scene with a duplicated root name,
`lookup_path("Enemy/Spawner")` reaches the `todo!()` panic rather than the
claimed not-found result. -/
theorem lookup_path_ambiguous_panics :
    sceneLookupNew sceneAmb = some lkAmb ∧
    lookupPath sceneAmb lkAmb "Enemy/Spawner" = .todoPanic ∧
    LookupOutcome.todoPanic ≠ .found none := by
  refine ⟨by decide, ?_, by decide⟩
  decide

theorem lookup_path_missing_and_ambiguous_witness :
    lookupPath sceneAmb lkAmb "Ghost/x" = .found none ∧
    lookupPath sceneAmb lkAmb "Enemy/Spawner" = .todoPanic :=
  ⟨(lookup_path_missing_and_ambiguous sceneAmb lkAmb "Ghost/x" "Ghost" ["x"]
      (by decide)).1 (by decide),
   (lookup_path_missing_and_ambiguous sceneAmb lkAmb "Enemy/Spawner" "Enemy"
      ["Spawner"] (by decide)).2 [1] (by decide)⟩

/-- Modelled from the spec: `Transform::ancestors` lives in the unity
utility module that is absent from src/ (only its caller in src/prune.rs is
present).  Per spec section 4.6 it walks upward from a node to the scene
root, dereferencing each `m_Father` pointer locally and yielding
`(path_id, Transform)` pairs until the father pointer is null; a failed
deref is an error and a cyclic parent chain does not terminate (fuel). -/
def ancestorsFrom (file : SFile) : Nat → Transform →
    Option (List (PathId × Transform))
  | 0, _ => none
  | fuel + 1, t =>
    match pptrOptional t.m_Father with
    | none => some []
    | some fp =>
      match lookupPid file.transforms fp.m_PathID with
      | none => none
      | some ft =>
        match ancestorsFrom file fuel ft with
        | none => none
        | some rest => some ((fp.m_PathID, ft) :: rest)

/-- The inner ancestor loop of `prune_scene_inner` (src/prune.rs lines
91-98): insert each ancestor id into the reachable set, stopping the walk
at the first id that was already present (`if !all_reachable.insert(id)
break`), and collect the newly inserted ancestors. -/
def insertAncestors : List (PathId × Transform) → List PathId →
    List (PathId × Transform) → List PathId × List (PathId × Transform)
  | [], reach, acc => (reach, acc)
  | (id, ft) :: rest, reach, acc =>
    if id ∈ reach then (reach, acc)
    else insertAncestors rest (insertId reach id) (acc ++ [(id, ft)])

/-- The outer `for (_, transform) in &retain_objects` ancestor loop of
`prune_scene_inner` (src/prune.rs lines 89-99). -/
def collectAncestors (file : SFile) (fuelA : Nat) :
    List (String × Transform) → List PathId → List (PathId × Transform) →
    Option (List PathId × List (PathId × Transform))
  | [], reach, acc => some (reach, acc)
  | (_, t) :: rest, reach, acc =>
    match ancestorsFrom file fuelA t with
    | none => none
    | some chain =>
      let r := insertAncestors chain reach acc
      collectAncestors file fuelA rest r.1 r.2

/-- A replacement byte blob recorded by the pruning pass, modelled by the
typed value handed to `serde_typetree::to_vec_endianed` (the type-tree
encoder itself is the wrapped rabex library). -/
inductive Replacement where
  | transformBytes (t : Transform)
  | gameObjectBytes (g : GameObject)
deriving DecidableEq

/-- `assert!(replacements.insert(id, bytes).is_none())` (src/prune.rs lines
152 and 170): inserting over an existing key panics, modelled as `none`. -/
def insertReplacement (repl : List (PathId × Replacement)) (id : PathId)
    (r : Replacement) : Option (List (PathId × Replacement)) :=
  match lookupPid repl id with
  | some _ => none
  | none => some (repl ++ [(id, r)])

/-- Model of `adjust_ancestor` (src/prune.rs lines 138-154) folded over the
collected ancestors (src/prune.rs lines 103-112): drop the children not in
the reachable set, add the ancestor's GameObject to the reachable set and
record the re-serialized transform. -/
def adjustAncestors :
    List (PathId × Transform) → List (PathId × Replacement) → List PathId →
    Option (List (PathId × Replacement) × List PathId)
  | [], repl, reach => some (repl, reach)
  | (id, t) :: rest, repl, reach =>
    let pruned := Transform.mk t.m_GameObject
      (t.m_Children.filter fun c => reach.contains c.m_PathID) t.m_Father
    let reach2 := insertId reach t.m_GameObject.m_PathID
    match insertReplacement repl id (.transformBytes pruned) with
    | none => none
    | some repl2 => adjustAncestors rest repl2 reach2

/-- The engine-settings retention loop of `prune_scene_inner` (src/prune.rs
lines 114-119): every object whose class id is in the literal
`[ClassId::RenderSettings]` list joins the reachable set. -/
def addSettings (objects : List (PathId × ClassId)) (reach : List PathId) :
    List PathId :=
  objects.foldl
    (fun r o => if [classIdRenderSettings].contains o.2 then insertId r o.1 else r)
    reach

/-- Model of `adjust_kept` (src/prune.rs lines 156-174) folded over the
retained roots (src/prune.rs lines 121-130): with `disable_roots` set, the
kept root's GameObject is re-encoded with its active flag cleared. -/
def adjustKeptAll (file : SFile) (disable : Bool) :
    List (String × Transform) → List (PathId × Replacement) →
    Option (List (PathId × Replacement))
  | [], repl => some repl
  | (_, t) :: rest, repl =>
    if disable then
      match lookupPid file.gameObjects t.m_GameObject.m_PathID with
      | none => none
      | some go =>
        match insertReplacement repl t.m_GameObject.m_PathID
          (.gameObjectBytes (GameObject.mk go.m_Component go.m_Layer go.m_Name
            go.m_Tag false)) with
        | none => none
        | some repl2 => adjustKeptAll file disable rest repl2
    else adjustKeptAll file disable rest repl

/-- Result of a pruning run, mirroring `PruneSceneResult` plus the
`replacements` map the source mutates in place. -/
structure PruneSceneResult where
  reachable : List PathId
  roots : List (String × Transform)
  replacements : List (PathId × Replacement)
deriving DecidableEq

/-- Model of `prune_scene_inner` (src/prune.rs lines 77-136): reachability
from the retained ids, the upward ancestor walk with child-list rewriting,
unconditional retention of the settings singletons and the optional
root-disabling pass.  `none` covers propagated errors, panics and exhausted
fuel. -/
def pruneSceneInner (file : SFile) (fuelR fuelA : Nat)
    (retainIds : List PathId) (retainObjects : List (String × Transform))
    (replacements : List (PathId × Replacement)) (disableRoots : Bool) :
    Option PruneSceneResult :=
  match reachable file.traces fuelR retainIds with
  | .ok allReachable _ =>
    match collectAncestors file fuelA retainObjects allReachable [] with
    | none => none
    | some (reach1, ancs) =>
      match adjustAncestors ancs replacements reach1 with
      | none => none
      | some (repl1, reach2) =>
        let reach3 := addSettings file.objects reach2
        match adjustKeptAll file disableRoots retainObjects repl1 with
        | none => none
        | some repl2 => some ⟨reach3, retainObjects, repl2⟩
  | _ => none

/-- The keep-path resolution loop of `prune_scene` (src/prune.rs lines
51-64): resolve every path through the scene lookup, skipping (with an
advisory message) the paths that come back not-found. -/
def resolveRetainPaths (file : SFile) (lk : SceneLookup) :
    List String → List PathId → List (String × Transform) →
    Option (List PathId × List (String × Transform))
  | [], ids, objs => some (ids, objs)
  | path :: rest, ids, objs =>
    match lookupPath file lk path with
    | .errored => none
    | .todoPanic => none
    | .found none => resolveRetainPaths file lk rest ids objs
    | .found (some (pid, t)) =>
      resolveRetainPaths file lk rest (ids ++ [pid]) (objs ++ [(path, t)])

/-- Model of `prune_scene` (src/prune.rs lines 41-75). -/
def pruneScene (file : SFile) (fuelR fuelA : Nat) (retainPaths : List String)
    (replacements : List (PathId × Replacement)) (disableRoots : Bool) :
    Option PruneSceneResult :=
  match sceneLookupNew file with
  | none => none
  | some lk =>
    match resolveRetainPaths file lk retainPaths [] [] with
    | none => none
    | some (ids, objs) =>
      pruneSceneInner file fuelR fuelA ids objs replacements disableRoots

/-- The 3-level scene `Root -> A, B` of the C2 claim: transform 1 (game
object 10, "Root") has children transforms 2 (game object 20, "A") and 3
(game object 30, "B"); per the spec-modelled pointer scan, a Transform's
trace yields its GameObject and children (not its father) and a
GameObject's trace yields its components. -/
def sceneC2 : SFile where
  objects := [(1, classIdTransform), (2, classIdTransform),
    (3, classIdTransform), (10, classIdGameObject), (20, classIdGameObject),
    (30, classIdGameObject)]
  transforms :=
    [(1, Transform.mk (PPtr.mk 0 10) [PPtr.mk 0 2, PPtr.mk 0 3] (PPtr.mk 0 0)),
     (2, Transform.mk (PPtr.mk 0 20) [] (PPtr.mk 0 1)),
     (3, Transform.mk (PPtr.mk 0 30) [] (PPtr.mk 0 1))]
  gameObjects := [(10, GameObject.mk [PPtr.mk 0 1] 0 "Root" 0 true),
    (20, GameObject.mk [PPtr.mk 0 2] 0 "A" 0 true),
    (30, GameObject.mk [PPtr.mk 0 3] 0 "B" 0 true)]
  traces := [(1, [PPtr.mk 0 10, PPtr.mk 0 2, PPtr.mk 0 3]),
    (2, [PPtr.mk 0 20]), (3, [PPtr.mk 0 30]),
    (10, [PPtr.mk 0 1]), (20, [PPtr.mk 0 2]), (30, [PPtr.mk 0 3])]

/-- Claim C2: pruning `sceneC2` with keep-set `Root/A` records, for the
ancestor `Root`, a replacement transform whose serialized child list is
exactly `[A]` (B's pointer dropped), and B's path id (3) is absent from the
returned reachable set. -/
theorem prune_scene_ancestor_rewrite :
    pruneScene sceneC2 10 5 ["Root/A"] [] false =
      some (PruneSceneResult.mk [2, 20, 1, 10]
        [("Root/A", Transform.mk (PPtr.mk 0 20) [] (PPtr.mk 0 1))]
        [(1, .transformBytes
          (Transform.mk (PPtr.mk 0 10) [PPtr.mk 0 2] (PPtr.mk 0 0)))]) ∧
    (Transform.mk (PPtr.mk 0 10) [PPtr.mk 0 2] (PPtr.mk 0 0)).m_Children =
      [PPtr.mk 0 2] ∧
    (3 : PathId) ∉ ([2, 20, 1, 10] : List PathId) := by
  refine ⟨?_, by decide, by decide⟩
  decide

theorem addSettings_mono (objects : List (PathId × ClassId)) :
    ∀ reach x, x ∈ reach → x ∈ addSettings objects reach := by
  induction objects with
  | nil => intro reach x hx; exact hx
  | cons o rest ih =>
    intro reach x hx
    unfold addSettings
    rw [List.foldl_cons]
    show x ∈ addSettings rest _
    split
    · exact ih _ x ((mem_insertId _ _ _).2 (Or.inl hx))
    · exact ih _ x hx

theorem addSettings_adds (objects : List (PathId × ClassId)) :
    ∀ reach o, o ∈ objects → o.2 = classIdRenderSettings →
      o.1 ∈ addSettings objects reach := by
  induction objects with
  | nil => intro reach o ho; exact absurd ho (List.not_mem_nil o)
  | cons a rest ih =>
    intro reach o ho hcls
    unfold addSettings
    rw [List.foldl_cons]
    show o.1 ∈ addSettings rest _
    rcases List.mem_cons.1 ho with rfl | ho
    · rw [if_pos (by simp [hcls, List.contains])]
      exact addSettings_mono rest _ _ (self_mem_insertId _ _)
    · split
      · exact ih _ o ho hcls
      · exact ih _ o ho hcls

/-- Claim C5 (amended): `prune_scene_inner` unconditionally retains every
`RenderSettings` object of the file in the returned reachable set; the
lightmap-settings and nav-mesh-settings singletons receive no such
treatment. -/
theorem prune_retains_render_settings (file : SFile) (fuelR fuelA : Nat)
    (retainIds : List PathId) (retainObjects : List (String × Transform))
    (repl : List (PathId × Replacement)) (disable : Bool)
    (res : PruneSceneResult)
    (h : pruneSceneInner file fuelR fuelA retainIds retainObjects repl disable
      = some res) :
    ∀ o ∈ file.objects, o.2 = classIdRenderSettings → o.1 ∈ res.reachable := by
  intro o ho hcls
  unfold pruneSceneInner at h
  cases hr : reachable file.traces fuelR retainIds with
  | outOfFuel => rw [hr] at h; simp at h
  | panicked => rw [hr] at h; simp at h
  | ok L E =>
    rw [hr] at h
    simp only at h
    cases hc : collectAncestors file fuelA retainObjects L [] with
    | none => rw [hc] at h; simp at h
    | some pr =>
      rw [hc] at h
      obtain ⟨reach1, ancs⟩ := pr
      simp only at h
      cases ha : adjustAncestors ancs repl reach1 with
      | none => rw [ha] at h; simp at h
      | some pr2 =>
        rw [ha] at h
        obtain ⟨repl1, reach2⟩ := pr2
        simp only at h
        cases hk : adjustKeptAll file disable retainObjects repl1 with
        | none => rw [hk] at h; simp at h
        | some repl2 =>
          rw [hk] at h
          simp only [Option.some.injEq] at h
          rw [← h]
          exact addSettings_adds file.objects reach2 o ho hcls

/-- `sceneC2` extended with lightmap-settings (50), nav-mesh-settings (60)
and render-settings (70) singleton objects, none pointed to by anything. -/
def sceneC5 : SFile where
  objects := [(1, classIdTransform), (2, classIdTransform),
    (3, classIdTransform), (10, classIdGameObject), (20, classIdGameObject),
    (30, classIdGameObject), (50, classIdLightmapSettings),
    (60, classIdNavMeshSettings), (70, classIdRenderSettings)]
  transforms := sceneC2.transforms
  gameObjects := sceneC2.gameObjects
  traces := sceneC2.traces

/-- Claim C5 counterexample: pruning `sceneC5` keeps the render-settings
object (70) but leaves the lightmap-settings (50) and nav-mesh-settings
(60) objects out of the reachable set, contradicting the claim that all
three singleton kinds are always retained. -/
theorem prune_drops_lightmap_and_navmesh_settings :
    pruneScene sceneC5 10 5 ["Root/A"] [] false =
      some (PruneSceneResult.mk [2, 20, 1, 10, 70]
        [("Root/A", Transform.mk (PPtr.mk 0 20) [] (PPtr.mk 0 1))]
        [(1, .transformBytes
          (Transform.mk (PPtr.mk 0 10) [PPtr.mk 0 2] (PPtr.mk 0 0)))]) ∧
    (50 : PathId) ∉ ([2, 20, 1, 10, 70] : List PathId) ∧
    (60 : PathId) ∉ ([2, 20, 1, 10, 70] : List PathId) ∧
    (70 : PathId) ∈ ([2, 20, 1, 10, 70] : List PathId) := by
  refine ⟨?_, by decide, by decide, by decide⟩
  decide

theorem prune_retains_render_settings_witness :
    (70 : PathId) ∈
      (PruneSceneResult.mk [2, 20, 1, 10, 70]
        [("Root/A", Transform.mk (PPtr.mk 0 20) [] (PPtr.mk 0 1))]
        [(1, .transformBytes
          (Transform.mk (PPtr.mk 0 10) [PPtr.mk 0 2] (PPtr.mk 0 0)))]).reachable :=
  prune_retains_render_settings sceneC5 10 5 [2]
    [("Root/A", Transform.mk (PPtr.mk 0 20) [] (PPtr.mk 0 1))] [] false _
    (by decide) (70, classIdRenderSettings) (by decide) rfl

/-- Model of `addressables::ArchivePath` (src/addressables/archive_path.rs):
the identity `archive:/bundle/file` of a bundle member. -/
structure ArchivePath where
  bundle : String
  file : String
deriving DecidableEq

/-- The component view of a relative `std::path::Path`: split on slashes,
dropping empty and `.` components, as `Path::iter` does. -/
def pathComponents (s : String) : List String :=
  (splitPath s).filter fun c => !(c == "" || c == ".")

/-- Model of `ArchivePath::try_parse` (src/addressables/archive_path.rs
lines 35-50): a path whose first component is not `archive:` is `Ok(None)`;
with the prefix, the next two components become bundle and file (extra
components are ignored by `parse_inner`), and a missing second component is
the `InvalidArchivePath` error, carrying the remaining components. -/
def tryParseArchive (path : String) : Except (List String) (Option ArchivePath) :=
  match pathComponents path with
  | "archive:" :: rest =>
    match rest with
    | b :: f :: _ => .ok (some (ArchivePath.mk b f))
    | _ => .error rest
  | _ => .ok none

/-- Claim C7 counterexample: the single-segment path `archive:/CAB-x` makes
`try_parse` return the `InvalidArchivePath` error, not the claimed
`Ok(None)`. -/
theorem try_parse_single_segment_errors :
    tryParseArchive "archive:/CAB-x" = .error ["CAB-x"] ∧
    ∀ o : Option ArchivePath,
      (Except.error ["CAB-x"] : Except (List String) (Option ArchivePath)) ≠
        .ok o := by
  refine ⟨by rfl, ?_⟩
  intro o h
  cases h

/-- Claim C7 (amended): `archive:/CAB-x/CAB-x` parses to bundle `CAB-x`,
file `CAB-x`; any path whose first component is not `archive:` parses to
`Ok(None)`; a path with the `archive:` prefix but only one following
segment is the `InvalidArchivePath` error rather than `Ok(None)`. -/
theorem try_parse_archive_paths :
    tryParseArchive "archive:/CAB-x/CAB-x" =
      .ok (some (ArchivePath.mk "CAB-x" "CAB-x")) ∧
    tryParseArchive "archive:/CAB-x" = .error ["CAB-x"] ∧
    ∀ path, (pathComponents path).head? ≠ some "archive:" →
      tryParseArchive path = .ok none := by
  refine ⟨by rfl, by rfl, ?_⟩
  intro path hhead
  unfold tryParseArchive
  cases hcomp : pathComponents path with
  | nil => rfl
  | cons c cs =>
    have hc : c ≠ "archive:" := by
      intro h
      rw [hcomp, h] at hhead
      exact hhead rfl
    split
    · rename_i heq
      rw [List.cons.injEq] at heq
      exact absurd heq.1 hc
    · rfl

theorem try_parse_archive_paths_witness :
    tryParseArchive "level2" = .ok none :=
  try_parse_archive_paths.2.2 "level2" (by decide)

/-- Model of `impl Merge for ()` (src/utils.rs line 46). -/
def mergeUnit (_ _ : Unit) : Unit := ()

/-- Model of `impl Merge for usize` (src/utils.rs lines 50-54). -/
def mergeUsize (a b : Nat) : Nat := a + b

/-- Model of `impl Merge for Option` (src/utils.rs lines 56-62): keep the
first `Some`. -/
def mergeOption {α : Type} (a b : Option α) : Option α :=
  if a.isNone then b else a

/-- Model of `impl Merge for Vec` (src/utils.rs lines 64-68):
concatenation. -/
def mergeVec {α : Type} (a b : List α) : List α := a ++ b

/-- Model of `impl Merge for BTreeSet`/`HashSet` (src/utils.rs lines
70-92): swap when the right side is larger, then extend, i.e. a union that
reuses the larger side. -/
def mergeBTreeSet {α : Type} [DecidableEq α] (a b : Finset α) : Finset α :=
  if a.card < b.card then b ∪ a else a ∪ b

/-- Model of `impl Merge for (T0, T1)` (src/utils.rs lines 132-137). -/
def mergePair {α β : Type} (m1 : α → α → α) (m2 : β → β → β)
    (a b : α × β) : α × β :=
  (m1 a.1 b.1, m2 a.2 b.2)

/-- Model of `impl Merge for (T0, T1, T2)` (src/utils.rs lines 139-144):
the instance requires `T2: Merge` (the unused `m3`) but merges only the
first two components, silently keeping the left third component. -/
def mergeTriple {α β γ : Type} (m1 : α → α → α) (m2 : β → β → β)
    (_m3 : γ → γ → γ) (a b : α × β × γ) : α × β × γ :=
  (m1 a.1 b.1, m2 a.2.1 b.2.1, a.2.2)

/-- Model of `seq_fold_reduce` (src/utils.rs lines 6-18) with an infallible
step function. -/
def seqFoldReduce {Acc ι : Type} (f : Acc → ι → Acc) (d : Acc)
    (items : List ι) : Acc :=
  items.foldl f d

/-- Model of `par_fold_reduce` (src/utils.rs lines 20-36): each worker
folds its chunk from `Acc::default()`, then the per-chunk results are
combined by `Merge::merge` from `Acc::default()`; the chunk list order
stands for the worker completion order. -/
def parFoldReduce {Acc ι : Type} (m : Acc → Acc → Acc) (d : Acc)
    (f : Acc → ι → Acc) (chunks : List (List ι)) : Acc :=
  (chunks.map fun c => c.foldl f d).foldl m d

theorem mergeBTreeSet_eq_union {α : Type} [DecidableEq α] (a b : Finset α) :
    mergeBTreeSet a b = a ∪ b := by
  unfold mergeBTreeSet
  split
  · exact Finset.union_comm b a
  · rfl

/-- The pair-of-sets accumulator `(BTreeSet, BTreeSet)` from the spec's
"map union, set union" merging. -/
abbrev SetPair := Finset ℤ × Finset ℤ

/-- `Merge` for the pair-of-sets accumulator. -/
def mergeSetPair (a b : SetPair) : SetPair :=
  mergePair mergeBTreeSet mergeBTreeSet a b

/-- `Default::default()` for the pair-of-sets accumulator. -/
def defaultSetPair : SetPair := (∅, ∅)

theorem mergeSetPair_eq (a b : SetPair) :
    mergeSetPair a b = (a.1 ∪ b.1, a.2 ∪ b.2) := by
  unfold mergeSetPair mergePair
  rw [mergeBTreeSet_eq_union, mergeBTreeSet_eq_union]

theorem mergeSetPair_assoc (a b c : SetPair) :
    mergeSetPair (mergeSetPair a b) c = mergeSetPair a (mergeSetPair b c) := by
  simp [mergeSetPair_eq, Finset.union_assoc]

theorem mergeSetPair_comm (a b : SetPair) :
    mergeSetPair a b = mergeSetPair b a := by
  simp [mergeSetPair_eq, Finset.union_comm]

theorem mergeSetPair_left_id (a : SetPair) :
    mergeSetPair defaultSetPair a = a := by
  simp [mergeSetPair_eq, defaultSetPair]

theorem mergeSetPair_right_id (a : SetPair) :
    mergeSetPair a defaultSetPair = a := by
  simp [mergeSetPair_eq, defaultSetPair]

theorem foldl_mergeSetPair_acc (l : List SetPair) :
    ∀ a, l.foldl mergeSetPair a =
      mergeSetPair a (l.foldl mergeSetPair defaultSetPair) := by
  induction l with
  | nil => intro a; simp [mergeSetPair_right_id]
  | cons x xs ih =>
    intro a
    rw [List.foldl_cons, List.foldl_cons, ih (mergeSetPair a x),
      ih (mergeSetPair defaultSetPair x), mergeSetPair_left_id,
      mergeSetPair_assoc]

theorem foldl_mergeSetPair_cons (x : SetPair) (l : List SetPair) :
    (x :: l).foldl mergeSetPair defaultSetPair =
      mergeSetPair x (l.foldl mergeSetPair defaultSetPair) := by
  rw [List.foldl_cons, foldl_mergeSetPair_acc, mergeSetPair_left_id]

theorem foldl_mergeSetPair_perm {l l' : List SetPair} (h : l.Perm l') :
    l.foldl mergeSetPair defaultSetPair =
      l'.foldl mergeSetPair defaultSetPair := by
  induction h with
  | nil => rfl
  | cons x _ ih => rw [foldl_mergeSetPair_cons, foldl_mergeSetPair_cons, ih]
  | swap x y l =>
    rw [foldl_mergeSetPair_cons, foldl_mergeSetPair_cons,
      foldl_mergeSetPair_cons, foldl_mergeSetPair_cons,
      ← mergeSetPair_assoc, ← mergeSetPair_assoc, mergeSetPair_comm y x]
  | trans _ _ ih1 ih2 => rw [ih1, ih2]

theorem foldl_mergeSetPair_append (l1 l2 : List SetPair) :
    (l1 ++ l2).foldl mergeSetPair defaultSetPair =
      mergeSetPair (l1.foldl mergeSetPair defaultSetPair)
        (l2.foldl mergeSetPair defaultSetPair) := by
  rw [List.foldl_append, foldl_mergeSetPair_acc]

/-- The total contribution of one chunk: the item contributions merged from
the default accumulator. -/
def chunkSum {ι : Type} (g : ι → SetPair) (c : List ι) : SetPair :=
  (c.map g).foldl mergeSetPair defaultSetPair

theorem foldl_itemStep_eq {ι : Type} (g : ι → SetPair) (c : List ι) :
    ∀ a, c.foldl (fun acc i => mergeSetPair acc (g i)) a =
      mergeSetPair a (chunkSum g c) := by
  induction c with
  | nil => intro a; simp [chunkSum, mergeSetPair_right_id]
  | cons i cs ih =>
    intro a
    rw [List.foldl_cons, ih]
    unfold chunkSum
    rw [List.map_cons, foldl_mergeSetPair_cons, mergeSetPair_assoc]

theorem chunkSum_append {ι : Type} (g : ι → SetPair) (c1 c2 : List ι) :
    chunkSum g (c1 ++ c2) = mergeSetPair (chunkSum g c1) (chunkSum g c2) := by
  unfold chunkSum
  rw [List.map_append, foldl_mergeSetPair_append]

/-- Claim C8 counterexample: the `(T0, T1, T2)` `Merge` instance drops the
right-hand third component, so it is not commutative and a partitioned
`par_fold_reduce` over a triple accumulator disagrees with the sequential
fold; `Vec` and `Option` merging are not commutative either. -/
theorem merge_triple_not_commutative :
    parFoldReduce (mergeTriple mergeUsize mergeUsize mergeUsize) (0, 0, 0)
        (fun a i => (a.1, a.2.1, a.2.2 + i)) [[1], [2]] ≠
      seqFoldReduce (fun a i => (a.1, a.2.1, a.2.2 + i)) ((0, 0, 0) : Nat × Nat × Nat)
        [1, 2] ∧
    mergeTriple mergeUsize mergeUsize mergeUsize ((0, 0, 1) : Nat × Nat × Nat)
        (0, 0, 2) ≠
      mergeTriple mergeUsize mergeUsize mergeUsize (0, 0, 2) (0, 0, 1) ∧
    mergeVec [1] [2] ≠ mergeVec [2] [(1 : Nat)] ∧
    mergeOption (some 1) (some 2) ≠ mergeOption (some 2) (some (1 : Nat)) := by
  refine ⟨by decide, by decide, by decide, by decide⟩

/-- Claim C8 (amended): the `Merge` combines for `usize` (addition) and for
sets (union), and their pair, are associative and commutative with the
default accumulator as identity, so for item-wise folds over a
pair-of-sets accumulator `par_fold_reduce` is invariant under partitioning
and worker completion order and agrees with the sequential fold; this does
not extend to the triple, `Vec` and `Option` instances (see the
counterexample). -/
theorem merge_assoc_comm_par_eq_seq :
    (∀ a b c : Nat, mergeUsize (mergeUsize a b) c = mergeUsize a (mergeUsize b c)) ∧
    (∀ a b : Nat, mergeUsize a b = mergeUsize b a) ∧
    (∀ a b c : Finset ℤ, mergeBTreeSet (mergeBTreeSet a b) c =
      mergeBTreeSet a (mergeBTreeSet b c)) ∧
    (∀ a b : Finset ℤ, mergeBTreeSet a b = mergeBTreeSet b a) ∧
    (∀ a b c : SetPair, mergeSetPair (mergeSetPair a b) c =
      mergeSetPair a (mergeSetPair b c)) ∧
    (∀ a b : SetPair, mergeSetPair a b = mergeSetPair b a) ∧
    (∀ (ι : Type) (items : List ι) (chunks chunks2 : List (List ι))
      (g : ι → SetPair), chunks2.Perm chunks → chunks.join = items →
      parFoldReduce mergeSetPair defaultSetPair
          (fun acc i => mergeSetPair acc (g i)) chunks2 =
        seqFoldReduce (fun acc i => mergeSetPair acc (g i)) defaultSetPair
          items) := by
  refine ⟨?_, ?_, ?_, ?_, ?_, ?_, ?_⟩
  · intro a b c; exact Nat.add_assoc a b c
  · intro a b; exact Nat.add_comm a b
  · intro a b c
    simp [mergeBTreeSet_eq_union, Finset.union_assoc]
  · intro a b
    simp [mergeBTreeSet_eq_union, Finset.union_comm]
  · exact mergeSetPair_assoc
  · exact mergeSetPair_comm
  · intro ι items chunks chunks2 g hperm hjoin
    unfold parFoldReduce seqFoldReduce
    have hchunk : ∀ c : List ι,
        c.foldl (fun acc i => mergeSetPair acc (g i)) defaultSetPair =
          chunkSum g c := by
      intro c
      rw [foldl_itemStep_eq, mergeSetPair_left_id]
    have hmap : ∀ cs : List (List ι),
        cs.map (fun c => c.foldl (fun acc i => mergeSetPair acc (g i))
          defaultSetPair) = cs.map (chunkSum g) := by
      intro cs
      induction cs with
      | nil => rfl
      | cons c rest ih => rw [List.map_cons, List.map_cons, hchunk, ih]
    rw [hmap]
    have hjoinSum : ∀ cs : List (List ι),
        (cs.map (chunkSum g)).foldl mergeSetPair defaultSetPair =
          chunkSum g cs.join := by
      intro cs
      induction cs with
      | nil => rfl
      | cons c rest ih =>
        rw [List.map_cons, foldl_mergeSetPair_cons, ih]
        show mergeSetPair (chunkSum g c) (chunkSum g rest.join) =
          chunkSum g (c ++ rest.join)
        rw [chunkSum_append]
    rw [foldl_mergeSetPair_perm (hperm.map (chunkSum g)), hjoinSum, hjoin,
      foldl_itemStep_eq, mergeSetPair_left_id]

/-- Per-item contribution used by the C8 witness. -/
def gWitness (i : Nat) : SetPair := ({(i : ℤ)}, ∅)

theorem merge_assoc_comm_par_eq_seq_witness :
    parFoldReduce mergeSetPair defaultSetPair
        (fun acc i => mergeSetPair acc (gWitness i)) [[2], [1]] =
      seqFoldReduce (fun acc i => mergeSetPair acc (gWitness i))
        defaultSetPair [1, 2] :=
  merge_assoc_comm_par_eq_seq.2.2.2.2.2.2 Nat [1, 2] [[1], [2]] [[2], [1]]
    gWitness (by decide) (by decide)

/-- Raw file bytes. -/
abbrev Bytes := List Nat

/-- Model of a parsed `rabex::files::SerializedFile` as the environment
cache sees it: the optional engine-version tag, with the remaining parsed
content abstracted to an opaque value (the byte-level format is the wrapped
library). -/
structure SerF where
  m_UnityVersion : Option String
  content : Nat
deriving DecidableEq

/-- A cache entry: the `(SerializedFile, Data)` pair boxed into the
environment's `FrozenMap` (src/env.rs line 51). -/
abbrev Entry := SerF × Bytes

/-- Generic association-list lookup (models `FrozenMap::get` and `HashMap`
reads on string keys). -/
def lookupAssoc {κ ν : Type} [DecidableEq κ] : List (κ × ν) → κ → Option ν
  | [], _ => none
  | (k, v) :: rest, x => if k = x then some v else lookupAssoc rest x

/-- Model of `elsa::sync::FrozenMap::insert`, whose sync implementation is
`entry(k).or_insert(v)`: an existing entry is kept (and returned), a
missing one is appended.  Returns the new map and the entry the caller's
handle refers to. -/
def insertFrozen {κ ν : Type} [DecidableEq κ] (m : List (κ × ν)) (k : κ)
    (v : ν) : List (κ × ν) × ν :=
  match lookupAssoc m k with
  | some e => (m, e)
  | none => (m ++ [(k, v)], v)

/-- Pure collaborators of the environment: the game-file resolver, the
serialized-file parser, the addressables index build and bundle-member
extraction (all out-of-scope libraries or filesystem reads, modelled as
functions of the logical inputs).  `aaRead = none` models a failing
`AddressablesData::read`; `bundleEntry b f = some none` models a bundle
whose container opens but lacks the member (the source's `.expect`
panic). -/
structure EnvConfig where
  readPath : String → Option Bytes
  parseSerialized : Bytes → Option SerF
  aaRead : Option (List (String × String))
  bundleEntry : String → String → Option (Option Bytes)

/-- Mutable state of an `Environment` (src/env.rs lines 47-54): the
append-only `serialized_files` cache, the `unity_version` and
`addressables` once-cells, plus a ghost log recording each consultation of
the backing resolver or archive container, tagged with the logical path
being loaded. -/
structure EnvState where
  cache : List (String × Entry)
  uv : Option String
  aa : Option (Option (List (String × String)))
  log : List String
deriving DecidableEq

/-- Load failures surfaced by the environment (panics included). -/
inductive LoadErr where
  | cannotRead : LoadErr
  | parseFail : LoadErr
  | aaReadFail : LoadErr
  | noAddressables : LoadErr
  | cabMissing : LoadErr
  | bundleFail : LoadErr
  | entryMissingPanic : LoadErr
  | noVersion : LoadErr
  | invalidArchivePath : LoadErr
deriving DecidableEq

/-- The plain-resolver path of `load_external_file` (src/env.rs lines
336-346), also reached by `load_cached("globalgamemanagers")`: cache hit,
else `read_path`, parse, insert-if-absent. -/
def loadViaResolver (cfg : EnvConfig) (s : EnvState) (p : String) :
    Except LoadErr Entry × EnvState :=
  match lookupAssoc s.cache p with
  | some e => (.ok e, s)
  | none =>
    match cfg.readPath p with
    | none => (.error .cannotRead, { s with log := s.log ++ [p] })
    | some data =>
      let s1 : EnvState := { s with log := s.log ++ [p] }
      match cfg.parseSerialized data with
      | none => (.error .parseFail, s1)
      | some f =>
        let r := insertFrozen s1.cache p (f, data)
        (.ok r.2, { s1 with cache := r.1 })

/-- Model of `Environment::unity_version` (src/env.rs lines 245-259): once
computed it is cached in the once-cell; otherwise `globalgamemanagers` is
loaded through the cache and its version tag extracted.  (The recursive
`load_cached` call never takes the archive branch because
`"globalgamemanagers"` does not parse as an archive path, so it is exactly
`loadViaResolver`.) -/
def unityVersionM (cfg : EnvConfig) (s : EnvState) :
    Except LoadErr String × EnvState :=
  match s.uv with
  | some v => (.ok v, s)
  | none =>
    match loadViaResolver cfg s "globalgamemanagers" with
    | (.error e, s1) => (.error e, s1)
    | (.ok entry, s1) =>
      match entry.1.m_UnityVersion with
      | none => (.error .noVersion, s1)
      | some v => (.ok v, { s1 with uv := some v })

/-- Model of `Environment::addressables` (src/env.rs lines 189-198): the
once-cell caches the `Option<AddressablesData>` (here its
`cab_to_bundle` map); a read error propagates without being cached. -/
def addressablesM (cfg : EnvConfig) (s : EnvState) :
    Except LoadErr (Option (List (String × String))) × EnvState :=
  match s.aa with
  | some d => (.ok d, s)
  | none =>
    match cfg.aaRead with
    | none => (.error .aaReadFail, s)
    | some d => (.ok (some d), { s with aa := some (some d) })

/-- Model of `Environment::load_external_file` (src/env.rs lines 300-349):
cache hit, else the `archive:/bundle/file` branch (addressables index
lookup, ambient unity version, bundle-member extraction, version
backfill), else the plain resolver fallback; the parsed file is inserted
with `FrozenMap::insert` and the returned handle references the cached
entry. -/
def loadExternalFile (cfg : EnvConfig) (s : EnvState) (p : String) :
    Except LoadErr Entry × EnvState :=
  match lookupAssoc s.cache p with
  | some e => (.ok e, s)
  | none =>
    match tryParseArchive p with
    | .error _ => (.error .invalidArchivePath, s)
    | .ok (some cab) =>
      match addressablesM cfg s with
      | (.error e, s1) => (.error e, s1)
      | (.ok none, s1) => (.error .noAddressables, s1)
      | (.ok (some aa), s1) =>
        match lookupAssoc aa cab.bundle with
        | none => (.error .cabMissing, s1)
        | some bundlePath =>
          match unityVersionM cfg s1 with
          | (.error e, s2) => (.error e, s2)
          | (.ok uv, s2) =>
            match cfg.bundleEntry bundlePath cab.file with
            | none => (.error .bundleFail, { s2 with log := s2.log ++ [p] })
            | some none =>
              (.error .entryMissingPanic, { s2 with log := s2.log ++ [p] })
            | some (some data) =>
              let s3 : EnvState := { s2 with log := s2.log ++ [p] }
              match cfg.parseSerialized data with
              | none => (.error .parseFail, s3)
              | some f =>
                let f2 : SerF := match f.m_UnityVersion with
                  | some _ => f
                  | none => SerF.mk (some uv) f.content
                let r := insertFrozen s3.cache p (f2, data)
                (.ok r.2, { s3 with cache := r.1 })
    | .ok none =>
      match cfg.readPath p with
      | none => (.error .cannotRead, { s with log := s.log ++ [p] })
      | some data =>
        let s1 : EnvState := { s with log := s.log ++ [p] }
        match cfg.parseSerialized data with
        | none => (.error .parseFail, s1)
        | some f =>
          let r := insertFrozen s1.cache p (f, data)
          (.ok r.2, { s1 with cache := r.1 })

/-- Sanity check that the inlined resolver arm of `loadExternalFile` agrees
with `loadViaResolver` on every non-archive path, justifying the model of
the source's recursive `load_cached("globalgamemanagers")` call. -/
theorem loadExternalFile_eq_resolver (cfg : EnvConfig) (s : EnvState)
    (p : String) (h : tryParseArchive p = .ok none) :
    loadExternalFile cfg s p = loadViaResolver cfg s p := by
  unfold loadExternalFile loadViaResolver
  cases lookupAssoc s.cache p with
  | some e => rfl
  | none => simp only [h]

theorem lookupAssoc_append_of_some {κ ν : Type} [DecidableEq κ]
    (m l : List (κ × ν)) (k : κ) (v : ν) (h : lookupAssoc m k = some v) :
    lookupAssoc (m ++ l) k = some v := by
  induction m with
  | nil => simp [lookupAssoc] at h
  | cons e rest ih =>
    rw [List.cons_append]
    unfold lookupAssoc at h ⊢
    split at h
    · rename_i heq
      rw [if_pos heq]
      exact h
    · rename_i hne
      rw [if_neg hne]
      exact ih h

theorem lookupAssoc_append_self {κ ν : Type} [DecidableEq κ]
    (m : List (κ × ν)) (k : κ) (v : ν) (h : lookupAssoc m k = none) :
    lookupAssoc (m ++ [(k, v)]) k = some v := by
  induction m with
  | nil => simp [lookupAssoc]
  | cons e rest ih =>
    rw [List.cons_append]
    unfold lookupAssoc at h ⊢
    split at h
    · exact absurd h (by simp)
    · rename_i hne
      rw [if_neg hne]
      exact ih h

theorem lookupAssoc_append_other {κ ν : Type} [DecidableEq κ]
    (m : List (κ × ν)) (k k' : κ) (v' : ν) (h : k' ≠ k) :
    lookupAssoc (m ++ [(k', v')]) k = lookupAssoc m k := by
  induction m with
  | nil => simp [lookupAssoc, h]
  | cons e rest ih =>
    rw [List.cons_append]
    unfold lookupAssoc
    split
    · rfl
    · exact ih

theorem count_append_one_self (l : List String) (p : String) :
    (l ++ [p]).count p = l.count p + 1 := by
  simp [List.count_append]

theorem count_append_one_other (l : List String) (p q : String) (h : q ≠ p) :
    (l ++ [q]).count p = l.count p := by
  simp [List.count_append, List.count_singleton', h]

theorem loadViaResolver_spec (cfg : EnvConfig) (s : EnvState) (p : String) :
    ((loadViaResolver cfg s p).2.uv = s.uv) ∧
    ((loadViaResolver cfg s p).2.aa = s.aa) ∧
    (∀ k, k ≠ p →
      lookupAssoc (loadViaResolver cfg s p).2.cache k = lookupAssoc s.cache k) ∧
    (∀ k v, lookupAssoc s.cache k = some v →
      lookupAssoc (loadViaResolver cfg s p).2.cache k = some v) ∧
    ((loadViaResolver cfg s p).2.log = s.log ∨
      (loadViaResolver cfg s p).2.log = s.log ++ [p]) ∧
    (∀ e, (loadViaResolver cfg s p).1 = .ok e →
      lookupAssoc (loadViaResolver cfg s p).2.cache p = some e) := by
  cases hc : lookupAssoc s.cache p with
  | some e0 =>
    have heq : loadViaResolver cfg s p = (.ok e0, s) := by
      simp only [loadViaResolver, hc]
    rw [heq]
    refine ⟨rfl, rfl, fun k _ => rfl, fun k v hv => hv, Or.inl rfl, ?_⟩
    intro e he
    cases he
    exact hc
  | none =>
    cases hr : cfg.readPath p with
    | none =>
      have heq : loadViaResolver cfg s p =
          (.error .cannotRead, { s with log := s.log ++ [p] }) := by
        simp only [loadViaResolver, hc, hr]
      rw [heq]
      refine ⟨rfl, rfl, fun k _ => rfl, fun k v hv => hv, Or.inr rfl, ?_⟩
      intro e he
      cases he
    | some data =>
      cases hp : cfg.parseSerialized data with
      | none =>
        have heq : loadViaResolver cfg s p =
            (.error .parseFail, { s with log := s.log ++ [p] }) := by
          simp only [loadViaResolver, hc, hr, hp]
        rw [heq]
        refine ⟨rfl, rfl, fun k _ => rfl, fun k v hv => hv, Or.inr rfl, ?_⟩
        intro e he
        cases he
      | some f =>
        have hins : insertFrozen s.cache p (f, data) =
            (s.cache ++ [(p, (f, data))], (f, data)) := by
          unfold insertFrozen
          rw [hc]
        have heq : loadViaResolver cfg s p =
            (.ok (f, data), EnvState.mk (s.cache ++ [(p, (f, data))]) s.uv
              s.aa (s.log ++ [p])) := by
          simp only [loadViaResolver, hc, hr, hp, hins]
        rw [heq]
        refine ⟨rfl, rfl, ?_, ?_, Or.inr rfl, ?_⟩
        · intro k hk
          exact lookupAssoc_append_other _ _ _ _ (fun h => hk h.symm)
        · intro k v hv
          exact lookupAssoc_append_of_some _ _ _ _ hv
        · intro e he
          cases he
          exact lookupAssoc_append_self _ _ _ hc

theorem unityVersionM_spec (cfg : EnvConfig) (s : EnvState) :
    (∀ k, k ≠ "globalgamemanagers" →
      lookupAssoc (unityVersionM cfg s).2.cache k = lookupAssoc s.cache k) ∧
    (∀ k v, lookupAssoc s.cache k = some v →
      lookupAssoc (unityVersionM cfg s).2.cache k = some v) ∧
    ((unityVersionM cfg s).2.log = s.log ∨
      (unityVersionM cfg s).2.log = s.log ++ ["globalgamemanagers"]) := by
  cases hv : s.uv with
  | some v =>
    have heq : unityVersionM cfg s = (.ok v, s) := by
      simp only [unityVersionM, hv]
    rw [heq]
    exact ⟨fun k _ => rfl, fun k v hv => hv, Or.inl rfl⟩
  | none =>
    have hspec := loadViaResolver_spec cfg s "globalgamemanagers"
    rcases hres : loadViaResolver cfg s "globalgamemanagers" with ⟨r1, s1⟩
    rw [hres] at hspec
    cases r1 with
    | error e =>
      have heq : unityVersionM cfg s = (.error e, s1) := by
        simp only [unityVersionM, hv, hres]
      rw [heq]
      exact ⟨hspec.2.2.1, hspec.2.2.2.1, hspec.2.2.2.2.1⟩
    | ok entry =>
      cases hver : entry.1.m_UnityVersion with
      | none =>
        have heq : unityVersionM cfg s = (.error .noVersion, s1) := by
          simp only [unityVersionM, hv, hres, hver]
        rw [heq]
        exact ⟨hspec.2.2.1, hspec.2.2.2.1, hspec.2.2.2.2.1⟩
      | some ver =>
        have heq : unityVersionM cfg s =
            (.ok ver, EnvState.mk s1.cache (some ver) s1.aa s1.log) := by
          simp only [unityVersionM, hv, hres, hver]
        rw [heq]
        exact ⟨hspec.2.2.1, hspec.2.2.2.1, hspec.2.2.2.2.1⟩

theorem addressablesM_state (cfg : EnvConfig) (s : EnvState) :
    (addressablesM cfg s).2.cache = s.cache ∧
    (addressablesM cfg s).2.log = s.log ∧
    (addressablesM cfg s).2.uv = s.uv := by
  cases ha : s.aa with
  | some d => simp [addressablesM, ha]
  | none =>
    cases hr : cfg.aaRead with
    | none => simp [addressablesM, ha, hr]
    | some d => simp [addressablesM, ha, hr]

theorem archive_path_ne_ggm (p : String) (cab : ArchivePath)
    (h : tryParseArchive p = .ok (some cab)) : p ≠ "globalgamemanagers" := by
  intro he
  rw [he] at h
  have h0 : tryParseArchive "globalgamemanagers" = .ok none := by rfl
  rw [h0] at h
  simp at h

/-- Claim C3: `load_external_file` is an append-only cache: existing cache
entries are never evicted or mutated by a load; the backing resolver or
archive container is consulted at most once per logical path and call; and
when a load succeeds, loading the same path again returns the identical
cached entry and leaves the environment state untouched. -/
theorem load_external_file_cache_props (cfg : EnvConfig) (s : EnvState)
    (p : String) :
    (∀ k v, lookupAssoc s.cache k = some v →
      lookupAssoc (loadExternalFile cfg s p).2.cache k = some v) ∧
    ((loadExternalFile cfg s p).2.log.count p ≤ s.log.count p + 1) ∧
    (∀ e, (loadExternalFile cfg s p).1 = .ok e →
      loadExternalFile cfg (loadExternalFile cfg s p).2 p =
        (.ok e, (loadExternalFile cfg s p).2)) := by
  have hsecond : ∀ (s' : EnvState) (e : Entry),
      lookupAssoc s'.cache p = some e →
      loadExternalFile cfg s' p = (.ok e, s') := by
    intro s' e hc
    simp only [loadExternalFile, hc]
  cases h1 : lookupAssoc s.cache p with
  | some e0 =>
    have heq : loadExternalFile cfg s p = (.ok e0, s) := by
      simp only [loadExternalFile, h1]
    rw [heq]
    refine ⟨fun k v hv => hv, Nat.le_succ _, ?_⟩
    intro e he
    cases he
    exact hsecond s e0 h1
  | none =>
    cases h2 : tryParseArchive p with
    | error err =>
      have heq : loadExternalFile cfg s p = (.error .invalidArchivePath, s) := by
        simp only [loadExternalFile, h1, h2]
      rw [heq]
      refine ⟨fun k v hv => hv, Nat.le_succ _, ?_⟩
      intro e he
      cases he
    | ok oc =>
      cases oc with
      | none =>
        have heq := loadExternalFile_eq_resolver cfg s p h2
        have hspec := loadViaResolver_spec cfg s p
        rw [heq]
        refine ⟨hspec.2.2.2.1, ?_, ?_⟩
        · rcases hspec.2.2.2.2.1 with hlog | hlog
          · rw [hlog]
            exact Nat.le_succ _
          · rw [hlog, count_append_one_self]
        · intro e he
          exact hsecond _ e (hspec.2.2.2.2.2 e he)
      | some cab =>
        have hne : p ≠ "globalgamemanagers" := archive_path_ne_ggm p cab h2
        have haState := addressablesM_state cfg s
        rcases ha : addressablesM cfg s with ⟨a1, s1⟩
        rw [ha] at haState
        obtain ⟨hs1cache, hs1log, _⟩ := haState
        cases a1 with
        | error e1 =>
          have heq : loadExternalFile cfg s p = (.error e1, s1) := by
            simp only [loadExternalFile, h1, h2, ha]
          rw [heq]
          refine ⟨?_, ?_, ?_⟩
          · intro k v hv
            rw [hs1cache]
            exact hv
          · rw [hs1log]
            exact Nat.le_succ _
          · intro e he
            cases he
        | ok oaa =>
          cases oaa with
          | none =>
            have heq : loadExternalFile cfg s p = (.error .noAddressables, s1) := by
              simp only [loadExternalFile, h1, h2, ha]
            rw [heq]
            refine ⟨?_, ?_, ?_⟩
            · intro k v hv
              rw [hs1cache]
              exact hv
            · rw [hs1log]
              exact Nat.le_succ _
            · intro e he
              cases he
          | some aa =>
            cases h3 : lookupAssoc aa cab.bundle with
            | none =>
              have heq : loadExternalFile cfg s p = (.error .cabMissing, s1) := by
                simp only [loadExternalFile, h1, h2, ha, h3]
              rw [heq]
              refine ⟨?_, ?_, ?_⟩
              · intro k v hv
                rw [hs1cache]
                exact hv
              · rw [hs1log]
                exact Nat.le_succ _
              · intro e he
                cases he
            | some bundlePath =>
              have huv := unityVersionM_spec cfg s1
              rcases hu : unityVersionM cfg s1 with ⟨u1, s2⟩
              rw [hu] at huv
              have hs2preserve : ∀ k v, lookupAssoc s.cache k = some v →
                  lookupAssoc s2.cache k = some v := by
                intro k v hv
                refine huv.2.1 k v ?_
                rw [hs1cache]
                exact hv
              have hs2count : s2.log.count p = s.log.count p := by
                rcases huv.2.2 with hlog | hlog
                · rw [hlog, hs1log]
                · rw [hlog, count_append_one_other _ _ _ (Ne.symm hne), hs1log]
              have hs2none : lookupAssoc s2.cache p = none := by
                rw [huv.1 p hne, hs1cache]
                exact h1
              cases u1 with
              | error e1 =>
                have heq : loadExternalFile cfg s p = (.error e1, s2) := by
                  simp only [loadExternalFile, h1, h2, ha, h3, hu]
                rw [heq]
                refine ⟨hs2preserve, ?_, ?_⟩
                · rw [hs2count]
                  exact Nat.le_succ _
                · intro e he
                  cases he
              | ok uv =>
                cases h4 : cfg.bundleEntry bundlePath cab.file with
                | none =>
                  have heq : loadExternalFile cfg s p = (.error .bundleFail,
                      EnvState.mk s2.cache s2.uv s2.aa (s2.log ++ [p])) := by
                    simp only [loadExternalFile, h1, h2, ha, h3, hu, h4]
                  rw [heq]
                  refine ⟨hs2preserve, ?_, ?_⟩
                  · show (s2.log ++ [p]).count p ≤ s.log.count p + 1
                    rw [count_append_one_self, hs2count]
                  · intro e he
                    cases he
                | some od =>
                  cases od with
                  | none =>
                    have heq : loadExternalFile cfg s p =
                        (.error .entryMissingPanic,
                          EnvState.mk s2.cache s2.uv s2.aa (s2.log ++ [p])) := by
                      simp only [loadExternalFile, h1, h2, ha, h3, hu, h4]
                    rw [heq]
                    refine ⟨hs2preserve, ?_, ?_⟩
                    · show (s2.log ++ [p]).count p ≤ s.log.count p + 1
                      rw [count_append_one_self, hs2count]
                    · intro e he
                      cases he
                  | some data =>
                    cases h5 : cfg.parseSerialized data with
                    | none =>
                      have heq : loadExternalFile cfg s p = (.error .parseFail,
                          EnvState.mk s2.cache s2.uv s2.aa (s2.log ++ [p])) := by
                        simp only [loadExternalFile, h1, h2, ha, h3, hu, h4, h5]
                      rw [heq]
                      refine ⟨hs2preserve, ?_, ?_⟩
                      · show (s2.log ++ [p]).count p ≤ s.log.count p + 1
                        rw [count_append_one_self, hs2count]
                      · intro e he
                        cases he
                    | some f =>
                      cases hver : f.m_UnityVersion with
                      | some v0 =>
                        have hins : insertFrozen s2.cache p (f, data) =
                            (s2.cache ++ [(p, (f, data))], (f, data)) := by
                          unfold insertFrozen
                          rw [hs2none]
                        have heq : loadExternalFile cfg s p = (.ok (f, data),
                            EnvState.mk (s2.cache ++ [(p, (f, data))]) s2.uv
                              s2.aa (s2.log ++ [p])) := by
                          simp only [loadExternalFile, h1, h2, ha, h3, hu, h4,
                            h5, hver, hins]
                        rw [heq]
                        refine ⟨?_, ?_, ?_⟩
                        · intro k v hv
                          exact lookupAssoc_append_of_some _ _ _ _
                            (hs2preserve k v hv)
                        · show (s2.log ++ [p]).count p ≤ s.log.count p + 1
                          rw [count_append_one_self, hs2count]
                        · intro e he
                          cases he
                          exact hsecond _ _ (lookupAssoc_append_self _ _ _ hs2none)
                      | none =>
                        have hins : insertFrozen s2.cache p
                            (SerF.mk (some uv) f.content, data) =
                            (s2.cache ++ [(p, (SerF.mk (some uv) f.content, data))],
                              (SerF.mk (some uv) f.content, data)) := by
                          unfold insertFrozen
                          rw [hs2none]
                        have heq : loadExternalFile cfg s p =
                            (.ok (SerF.mk (some uv) f.content, data),
                              EnvState.mk
                                (s2.cache ++
                                  [(p, (SerF.mk (some uv) f.content, data))])
                                s2.uv s2.aa (s2.log ++ [p])) := by
                          simp only [loadExternalFile, h1, h2, ha, h3, hu, h4,
                            h5, hver, hins]
                        rw [heq]
                        refine ⟨?_, ?_, ?_⟩
                        · intro k v hv
                          exact lookupAssoc_append_of_some _ _ _ _
                            (hs2preserve k v hv)
                        · show (s2.log ++ [p]).count p ≤ s.log.count p + 1
                          rw [count_append_one_self, hs2count]
                        · intro e he
                          cases he
                          exact hsecond _ _ (lookupAssoc_append_self _ _ _ hs2none)

/-- Configuration used by the C3 witness: one loose file `f` parsing to a
file with version tag `2020`, no addressables. -/
def cfgW : EnvConfig where
  readPath := fun q => if q = "f" then some [1] else none
  parseSerialized := fun b => if b = [1] then some (SerF.mk (some "2020") 7) else none
  aaRead := none
  bundleEntry := fun _ _ => none

/-- The empty starting environment state. -/
def envS0 : EnvState := EnvState.mk [] none none []

theorem load_external_file_cache_props_witness :
    loadExternalFile cfgW (loadExternalFile cfgW envS0 "f").2 "f" =
      (.ok (SerF.mk (some "2020") 7, [1]), (loadExternalFile cfgW envS0 "f").2) :=
  (load_external_file_cache_props cfgW envS0 "f").2.2
    (SerF.mk (some "2020") 7, [1]) (by rfl)

/-- The sentinel encoded offset `u32::MAX` of the binary catalog. -/
def u32MAX : Nat := 4294967295

/-- Little-endian value of a byte list. -/
def leNat : List Nat → Nat
  | [] => 0
  | b :: rest => b + 256 * leNat rest

/-- The little-endian `u32` stored at `pos`, when four bytes are
available (a failing `read_exact` is `none`). -/
def u32At (bytes : Bytes) (pos : Nat) : Option Nat :=
  if pos + 4 ≤ bytes.length then some (leNat ((bytes.drop pos).take 4)) else none

/-- Reader state of a `BinaryCatalogReader`: the seek position and the
`Cache.strings` map (`Cache.locations` is not consumed by the functions
settled here). -/
structure CatSt where
  pos : Nat
  strings : List (Nat × Bytes)
deriving DecidableEq

/-- Failures of the catalog decoder: I/O errors, invalid UTF-8, the
`assert!` in `get_assembly_short_name`, the `unreachable!` on a misaligned
offset array and the unsupported-type error of `decode_v2`. -/
inductive DErr where
  | ioErr : DErr
  | utf8Err : DErr
  | assertNoComma : DErr
  | unreachableMisaligned : DErr
  | unsupportedType : DErr
deriving DecidableEq

/-- Decidable equality for `Except` results, used to evaluate the decoder
on concrete byte inputs. -/
instance {e a : Type} [DecidableEq e] [DecidableEq a] : DecidableEq (Except e a) :=
  fun x y =>
    match x, y with
    | .error u, .error v =>
      if h : u = v then .isTrue (h ▸ rfl)
      else .isFalse (fun hc => h (by injection hc))
    | .error _, .ok _ => .isFalse (fun hc => by injection hc)
    | .ok _, .error _ => .isFalse (fun hc => by injection hc)
    | .ok u, .ok v =>
      if h : u = v then .isTrue (h ▸ rfl)
      else .isFalse (fun hc => h (by injection hc))

/-- `HashMap::insert` on an association list (overwrite or append). -/
def putAssoc {κ ν : Type} [DecidableEq κ] : List (κ × ν) → κ → ν → List (κ × ν)
  | [], k, v => [(k, v)]
  | (k0, v0) :: rest, k, v =>
    if k0 = k then (k0, v) :: rest else (k0, v0) :: putAssoc rest k v

def seekCat (st : CatSt) (p : Nat) : CatSt := CatSt.mk p st.strings

/-- `offset as u64 - 4`, with u64 wrap-around for offsets below 4. -/
def wrapSub4 (offset : Nat) : Nat :=
  (offset + 18446744073709551612) % 18446744073709551616

/-- `read_u32` (src/addressables/binary_catalog.rs lines 484-488). -/
def readU32 (bytes : Bytes) (st : CatSt) : Except DErr (Nat × CatSt) :=
  match u32At bytes st.pos with
  | none => .error .ioErr
  | some v => .ok (v, CatSt.mk (st.pos + 4) st.strings)

/-- `read_exact` of `n` bytes from the current position. -/
def readBytesAt (bytes : Bytes) (st : CatSt) (n : Nat) :
    Except DErr (Bytes × CatSt) :=
  if st.pos + n ≤ bytes.length then
    .ok ((bytes.drop st.pos).take n, CatSt.mk (st.pos + n) st.strings)
  else .error .ioErr

/-- Two's-complement reading of an unsigned `w`-bit value. -/
def toSigned (w : Nat) (n : Nat) : Int :=
  if n < 2 ^ (w - 1) then (n : Int) else (n : Int) - 2 ^ w

/-- `read_i32`. -/
def readI32 (bytes : Bytes) (st : CatSt) : Except DErr (Int × CatSt) :=
  match readU32 bytes st with
  | .error e => .error e
  | .ok (v, st1) => .ok (toSigned 32 v, st1)

/-- `read_i64`. -/
def readI64 (bytes : Bytes) (st : CatSt) : Except DErr (Int × CatSt) :=
  match readBytesAt bytes st 8 with
  | .error e => .error e
  | .ok (buf, st1) => .ok (toSigned 64 (leNat buf), st1)

/-- `read_i16`. -/
def readI16 (bytes : Bytes) (st : CatSt) : Except DErr (Int × CatSt) :=
  match readBytesAt bytes st 2 with
  | .error e => .error e
  | .ok (buf, st1) => .ok (toSigned 16 (leNat buf), st1)

/-- `read_u8`. -/
def readU8 (bytes : Bytes) (st : CatSt) : Except DErr (Nat × CatSt) :=
  match bytes.get? st.pos with
  | none => .error .ioErr
  | some b => .ok (b, CatSt.mk (st.pos + 1) st.strings)

/-- `read_bool`: one byte, nonzero is true. -/
def readBool (bytes : Bytes) (st : CatSt) : Except DErr (Bool × CatSt) :=
  match readU8 bytes st with
  | .error e => .error e
  | .ok (b, st1) => .ok (b != 0, st1)

def contB (b : Nat) : Bool := decide (128 ≤ b ∧ b ≤ 191)

/-- Validity of a byte sequence as UTF-8 (the check behind
`String::from_utf8`; the decoded string is modelled by its bytes). -/
def utf8Valid : List Nat → Bool
  | [] => true
  | b :: rest =>
    if b ≤ 127 then utf8Valid rest
    else if 194 ≤ b ∧ b ≤ 223 then
      match rest with
      | b2 :: rest2 => contB b2 && utf8Valid rest2
      | [] => false
    else if b = 224 then
      match rest with
      | b2 :: b3 :: rest3 =>
        decide (160 ≤ b2 ∧ b2 ≤ 191) && contB b3 && utf8Valid rest3
      | _ => false
    else if 225 ≤ b ∧ b ≤ 236 then
      match rest with
      | b2 :: b3 :: rest3 => contB b2 && contB b3 && utf8Valid rest3
      | _ => false
    else if b = 237 then
      match rest with
      | b2 :: b3 :: rest3 =>
        decide (128 ≤ b2 ∧ b2 ≤ 159) && contB b3 && utf8Valid rest3
      | _ => false
    else if 238 ≤ b ∧ b ≤ 239 then
      match rest with
      | b2 :: b3 :: rest3 => contB b2 && contB b3 && utf8Valid rest3
      | _ => false
    else if b = 240 then
      match rest with
      | b2 :: b3 :: b4 :: rest4 =>
        decide (144 ≤ b2 ∧ b2 ≤ 191) && contB b3 && contB b4 && utf8Valid rest4
      | _ => false
    else if 241 ≤ b ∧ b ≤ 243 then
      match rest with
      | b2 :: b3 :: b4 :: rest4 =>
        contB b2 && contB b3 && contB b4 && utf8Valid rest4
      | _ => false
    else if b = 244 then
      match rest with
      | b2 :: b3 :: b4 :: rest4 =>
        decide (128 ≤ b2 ∧ b2 ≤ 143) && contB b3 && contB b4 && utf8Valid rest4
      | _ => false
    else false

/-- `read_basic_string` (src/addressables/binary_catalog.rs lines 548-561):
seek to `offset - 4` (u64 wrap), read the 4-byte length, then that many
raw bytes, validated as UTF-8; a negative length cannot be read. -/
def readBasicString (bytes : Bytes) (offset : Nat) (_unicode : Bool)
    (st : CatSt) : Except DErr (Bytes × CatSt) :=
  match readI32 bytes (seekCat st (wrapSub4 offset)) with
  | .error e => .error e
  | .ok (len, st1) =>
    if len < 0 then .error .ioErr
    else
      match readBytesAt bytes st1 len.toNat with
      | .error e => .error e
      | .ok (buf, st2) =>
        if utf8Valid buf then .ok (buf, st2) else .error .utf8Err

/-- `read_encoded_string` (src/addressables/binary_catalog.rs lines
510-516), i.e. `read_encoded_string_sep` with separator `'\0'`: with a null
separator the dynamic-string bit is ignored, so only the cache, the
sentinel and the basic-string path remain (no recursion). -/
def readEncodedStringBasic (bytes : Bytes) (eo : Nat) (st : CatSt) :
    Except DErr (Bytes × CatSt) :=
  match lookupAssoc st.strings eo with
  | some s => .ok (s, st)
  | none =>
    if eo = u32MAX then .ok ([], st)
    else
      match readBasicString bytes (eo % 1073741824) (eo.testBit 31) st with
      | .error e => .error e
      | .ok (r, st1) => .ok (r, CatSt.mk st1.pos (putAssoc st1.strings eo r))

/-- UTF-8 encoding of one code point (the separator characters fed to
`join`). -/
def charUtf8 (c : Nat) : Bytes :=
  if c < 128 then [c]
  else if c < 2048 then [192 + c / 64, 128 + c % 64]
  else if c < 65536 then [224 + c / 4096, 128 + c / 64 % 64, 128 + c % 64]
  else [240 + c / 262144, 128 + c / 4096 % 64, 128 + c / 64 % 64, 128 + c % 64]

/-- `parts.join(&separator.to_string())`. -/
def joinSep (sep : Nat) (parts : List Bytes) : Bytes :=
  List.intercalate (charUtf8 sep) parts

/-- The `loop` of `read_segmented_string` (src/addressables/
binary_catalog.rs lines 572-583): read `(part_offset, next_node_offset)`,
decode the part (plain encoded string), stop at the sentinel, otherwise
seek to the next node.  There is no cycle detection, so the loop consumes
one unit of fuel per node; exhausted fuel (`none`) models
non-termination. -/
def segLoop (bytes : Bytes) (sep : Nat) :
    Nat → CatSt → List Bytes → Option (Except DErr (Bytes × CatSt))
  | 0, _, _ => none
  | fuel + 1, st, parts =>
    match readU32 bytes st with
    | .error e => some (.error e)
    | .ok (part, st1) =>
      match readU32 bytes st1 with
      | .error e => some (.error e)
      | .ok (next, st2) =>
        match readEncodedStringBasic bytes part st2 with
        | .error e => some (.error e)
        | .ok (s, st3) =>
          let parts2 := parts ++ [s]
          if next = u32MAX then some (.ok (joinSep sep parts2.reverse, st3))
          else segLoop bytes sep fuel (seekCat st3 next) parts2

/-- `read_segmented_string` (src/addressables/binary_catalog.rs lines
563-587). -/
def readSegmentedString (bytes : Bytes) (fuel : Nat) (offset : Nat)
    (_unicode : Bool) (sep : Nat) (st : CatSt) :
    Option (Except DErr (Bytes × CatSt)) :=
  segLoop bytes sep fuel (seekCat st offset) []

/-- `read_encoded_string_sep` (src/addressables/binary_catalog.rs lines
518-546): cache hit first, then the sentinel (empty string, uncached), then
the bitfield split into unicode flag, dynamic flag (only with a non-null
separator) and the low 30 offset bits; the decoded string is cached under
the raw encoded offset. -/
def readEncodedStringSep (bytes : Bytes) (fuel : Nat) (eo : Nat) (sep : Nat)
    (st : CatSt) : Option (Except DErr (Bytes × CatSt)) :=
  match lookupAssoc st.strings eo with
  | some s => some (.ok (s, st))
  | none =>
    if eo = u32MAX then some (.ok ([], st))
    else
      if eo.testBit 30 && sep != 0 then
        match readSegmentedString bytes fuel (eo % 1073741824) (eo.testBit 31)
            sep st with
        | none => none
        | some (.error e) => some (.error e)
        | some (.ok (r, st1)) =>
          some (.ok (r, CatSt.mk st1.pos (putAssoc st1.strings eo r)))
      else
        match readBasicString bytes (eo % 1073741824) (eo.testBit 31) st with
        | .error e => some (.error e)
        | .ok (r, st1) =>
          some (.ok (r, CatSt.mk st1.pos (putAssoc st1.strings eo r)))

/-- Sanity check: with the null separator, `read_encoded_string_sep` is
exactly the specialization `readEncodedStringBasic` used inside the
segmented-string loop. -/
theorem readEncodedStringSep_sep_zero (bytes : Bytes) (fuel : Nat) (eo : Nat)
    (st : CatSt) :
    readEncodedStringSep bytes fuel eo 0 st =
      some (readEncodedStringBasic bytes eo st) := by
  unfold readEncodedStringSep readEncodedStringBasic
  cases lookupAssoc st.strings eo with
  | some s => rfl
  | none =>
    simp only
    split
    · rfl
    · have hdyn : (eo.testBit 30 && (0 : Nat) != 0) = false := by
        simp
      rw [hdyn]
      simp only [Bool.false_eq_true, if_false]
      cases readBasicString bytes (eo % 1073741824) (eo.testBit 31) st with
      | error e => rfl
      | ok p => rfl

/-- `read_u32` repeated `n` times (the element loop of
`read_offset_array`). -/
def readU32s (bytes : Bytes) : Nat → CatSt → Except DErr (List Nat × CatSt)
  | 0, st => .ok ([], st)
  | n + 1, st =>
    match readU32 bytes st with
    | .error e => .error e
    | .ok (v, st1) =>
      match readU32s bytes n st1 with
      | .error e => .error e
      | .ok (vs, st2) => .ok (v :: vs, st2)

/-- `read_offset_array` (src/addressables/binary_catalog.rs lines 589-609):
the sentinel yields an empty array with no seek; otherwise the `i32` byte
size at `offset - 4` must be a multiple of 4 (`unreachable!` otherwise, a
negative size fails allocation), followed by `byte_size / 4` raw u32s. -/
def readOffsetArray (bytes : Bytes) (eo : Nat) (st : CatSt) :
    Except DErr (List Nat × CatSt) :=
  if eo = u32MAX then .ok ([], st)
  else
    match readI32 bytes (seekCat st (wrapSub4 eo)) with
    | .error e => .error e
    | .ok (byteSize, st1) =>
      if byteSize % 4 ≠ 0 then .error .unreachableMisaligned
      else if byteSize < 0 then .error .ioErr
      else readU32s bytes (byteSize / 4).toNat st1

/-- Model of `AssemblyClass` (src/addressables/binary_catalog.rs lines
8-13), with the two strings kept as their UTF-8 bytes. -/
structure AssemblyClassM where
  m_AssemblyName : Bytes
  m_ClassName : Bytes
deriving DecidableEq

/-- UTF-8 bytes of an ASCII string literal. -/
def asciiBytes (s : String) : Bytes := s.data.map Char.toNat

/-- `AssemblyClass::from_reader` (src/addressables/binary_catalog.rs lines
24-37): two encoded-string offsets, both decoded with separator `'.'`. -/
def assemblyClassFromReader (bytes : Bytes) (fuel : Nat) (st : CatSt) :
    Option (Except DErr (AssemblyClassM × CatSt)) :=
  match readU32 bytes st with
  | .error e => some (.error e)
  | .ok (an, st1) =>
    match readU32 bytes st1 with
    | .error e => some (.error e)
    | .ok (cn, st2) =>
      match readEncodedStringSep bytes fuel an 46 st2 with
      | none => none
      | some (.error e) => some (.error e)
      | some (.ok (aname, st3)) =>
        match readEncodedStringSep bytes fuel cn 46 st3 with
        | none => none
        | some (.error e) => some (.error e)
        | some (.ok (cname, st4)) =>
          some (.ok (AssemblyClassM.mk aname cname, st4))

/-- `AssemblyClass::get_match_name` with `get_assembly_short_name`
(src/addressables/binary_catalog.rs lines 39-45): asserts the assembly name
contains a comma (a panic otherwise), takes the part before the first
comma, and formats `"<short>; <class>"` (`[59, 32]` is `"; "`). -/
def getMatchName (cls : AssemblyClassM) : Except DErr Bytes :=
  if 44 ∈ cls.m_AssemblyName then
    .ok (cls.m_AssemblyName.takeWhile (fun b => b != 44) ++ [59, 32] ++
      cls.m_ClassName)
  else .error .assertNoComma

/-- Model of `Hash128`. -/
structure Hash128M where
  v0 : Nat
  v1 : Nat
  v2 : Nat
  v3 : Nat
deriving DecidableEq

/-- Model of `CommonInfo` (src/addressables/binary_catalog.rs lines
660-666). -/
structure CommonInfoM where
  timeout : Int
  redirectLimit : Nat
  retryCount : Nat
  flags : Int
deriving DecidableEq

/-- Model of `AssetBundleRequestOptions` (src/addressables/
binary_catalog.rs lines 617-624). -/
structure AbroM where
  hash : Hash128M
  crc : Nat
  commonInfo : CommonInfoM
  bundleName : Bytes
  bundleSize : Nat
deriving DecidableEq

/-- `CommonInfo::from_reader` (src/addressables/binary_catalog.rs lines
667-680). -/
def commonInfoFromReader (bytes : Bytes) (st : CatSt) :
    Except DErr (CommonInfoM × CatSt) :=
  match readI16 bytes st with
  | .error e => .error e
  | .ok (tmo, st1) =>
    match readU8 bytes st1 with
    | .error e => .error e
    | .ok (redirect, st2) =>
      match readU8 bytes st2 with
      | .error e => .error e
      | .ok (retry, st3) =>
        match readI32 bytes st3 with
        | .error e => .error e
        | .ok (flags, st4) =>
          .ok (CommonInfoM.mk tmo redirect retry flags, st4)

/-- `AssetBundleRequestOptions::from_reader` (src/addressables/
binary_catalog.rs lines 625-658): five header u32s, the hash words at
`hash_offset`, the bundle name with separator `'_'` (95), and the common
info at `common_info_offset`. -/
def abroFromReader (bytes : Bytes) (fuel : Nat) (st : CatSt) :
    Option (Except DErr (AbroM × CatSt)) :=
  match readU32 bytes st with
  | .error e => some (.error e)
  | .ok (hashOffset, st1) =>
    match readU32 bytes st1 with
    | .error e => some (.error e)
    | .ok (bundleNameOffset, st2) =>
      match readU32 bytes st2 with
      | .error e => some (.error e)
      | .ok (crc, st3) =>
        match readU32 bytes st3 with
        | .error e => some (.error e)
        | .ok (bundleSize, st4) =>
          match readU32 bytes st4 with
          | .error e => some (.error e)
          | .ok (commonInfoOffset, st5) =>
            match readU32s bytes 4 (seekCat st5 hashOffset) with
            | .error e => some (.error e)
            | .ok (hs, st6) =>
              let hv := Hash128M.mk (hs.getD 0 0) (hs.getD 1 0) (hs.getD 2 0)
                (hs.getD 3 0)
              match readEncodedStringSep bytes fuel bundleNameOffset 95 st6 with
              | none => none
              | some (.error e) => some (.error e)
              | some (.ok (bname, st7)) =>
                match commonInfoFromReader bytes (seekCat st7 commonInfoOffset)
                    with
                | .error e => some (.error e)
                | .ok (ci, st8) =>
                  some (.ok (AbroM.mk hv crc ci bname bundleSize, st8))

/-- Model of the tagged `Value` decoded by `decode_v2`. -/
inductive ValueM where
  | int (v : Int) : ValueM
  | long (v : Int) : ValueM
  | boolean (b : Bool) : ValueM
  | str (s : Bytes) : ValueM
  | hash (h : Hash128M) : ValueM
  | abro (cls : AssemblyClassM) (o : AbroM) : ValueM
deriving DecidableEq

def mnInt : Bytes := asciiBytes "mscorlib; System.Int32"

def mnLong : Bytes := asciiBytes "mscorlib; System.Int64"

def mnBool : Bytes := asciiBytes "mscorlib; System.Boolean"

def mnString : Bytes := asciiBytes "mscorlib; System.String"

def mnHash : Bytes := asciiBytes "UnityEngine.CoreModule; UnityEngine.Hash128"

def mnAbro : Bytes := asciiBytes
  "Unity.ResourceManager; UnityEngine.ResourceManagement.ResourceProviders.AssetBundleRequestOptions"

/-- Model of `decode_v2` (src/addressables/binary_catalog.rs lines
713-803): the sentinel offset is `None` with no seek; otherwise read
`(type_name_offset, object_offset)`, resolve the type name, and decode per
match name, where a sentinel `object_offset` yields the type's default
value — except `AssetBundleRequestOptions`, which yields `None`; an
unrecognized name is a fatal error. -/
def decodeV2 (bytes : Bytes) (fuel : Nat) (offset : Nat) (st : CatSt) :
    Option (Except DErr (Option ValueM × CatSt)) :=
  if offset = u32MAX then some (.ok (none, st))
  else
    match readU32 bytes (seekCat st offset) with
    | .error e => some (.error e)
    | .ok (tno, st1) =>
      match readU32 bytes st1 with
      | .error e => some (.error e)
      | .ok (oo, st2) =>
        match assemblyClassFromReader bytes fuel (seekCat st2 tno) with
        | none => none
        | some (.error e) => some (.error e)
        | some (.ok (cls, st3)) =>
          match getMatchName cls with
          | .error e => some (.error e)
          | .ok mn =>
            if mn = mnInt then
              if oo = u32MAX then some (.ok (some (.int 0), st3))
              else
                match readI32 bytes (seekCat st3 oo) with
                | .error e => some (.error e)
                | .ok (v, st4) => some (.ok (some (.int v), st4))
            else if mn = mnLong then
              if oo = u32MAX then some (.ok (some (.long 0), st3))
              else
                match readI64 bytes (seekCat st3 oo) with
                | .error e => some (.error e)
                | .ok (v, st4) => some (.ok (some (.long v), st4))
            else if mn = mnBool then
              if oo = u32MAX then some (.ok (some (.boolean false), st3))
              else
                match readBool bytes (seekCat st3 oo) with
                | .error e => some (.error e)
                | .ok (v, st4) => some (.ok (some (.boolean v), st4))
            else if mn = mnString then
              if oo = u32MAX then some (.ok (some (.str []), st3))
              else
                match readU32 bytes (seekCat st3 oo) with
                | .error e => some (.error e)
                | .ok (strOffset, st4) =>
                  match readU8 bytes st4 with
                  | .error e => some (.error e)
                  | .ok (sepb, st5) =>
                    match readEncodedStringSep bytes fuel strOffset sepb st5 with
                    | none => none
                    | some (.error e) => some (.error e)
                    | some (.ok (s, st6)) => some (.ok (some (.str s), st6))
            else if mn = mnHash then
              if oo = u32MAX then
                some (.ok (some (.hash (Hash128M.mk 0 0 0 0)), st3))
              else
                match readU32s bytes 4 (seekCat st3 oo) with
                | .error e => some (.error e)
                | .ok (hs, st4) =>
                  some (.ok (some (.hash (Hash128M.mk (hs.getD 0 0) (hs.getD 1 0)
                    (hs.getD 2 0) (hs.getD 3 0))), st4))
            else if mn = mnAbro then
              if oo = u32MAX then some (.ok (none, st3))
              else
                match abroFromReader bytes fuel (seekCat st3 oo) with
                | none => none
                | some (.error e) => some (.error e)
                | some (.ok (o, st4)) => some (.ok (some (.abro cls o), st4))
            else some (.error .unsupportedType)

/-- Whether following the `next_node_offset` chain from `o` reaches the
sentinel (or a failing read, which ends the loop with an error) within `k`
nodes. -/
def segTerm (bytes : Bytes) : Nat → Nat → Bool
  | _, 0 => false
  | o, k + 1 =>
    match u32At bytes o with
    | none => true
    | some _ =>
      match u32At bytes (o + 4) with
      | none => true
      | some next => next == u32MAX || segTerm bytes next k

/-- A segmented-string node at offset 0 whose `next_node_offset` points
back at itself: `(part_offset = sentinel, next = 0)`. -/
def cycBytes : Bytes := [255, 255, 255, 255, 0, 0, 0, 0]

theorem segLoop_term (bytes : Bytes) (sep : Nat) :
    ∀ k o, segTerm bytes o k = true → ∀ fuel, k ≤ fuel → ∀ strs parts,
      (segLoop bytes sep fuel (CatSt.mk o strs) parts).isSome = true := by
  intro k
  induction k with
  | zero =>
    intro o h
    simp [segTerm] at h
  | succ k ih =>
    intro o h fuel hf strs parts
    cases fuel with
    | zero => exact absurd hf (by omega)
    | succ f =>
      unfold segLoop
      cases h1 : u32At bytes o with
      | none => simp [readU32, h1]
      | some part =>
        cases h2 : u32At bytes (o + 4) with
        | none => simp [readU32, h1, h2]
        | some next =>
          have hterm : (next == u32MAX || segTerm bytes next k) = true := by
            have h' := h
            simp only [segTerm, h1, h2] at h'
            exact h'
          simp only [readU32, h1, h2]
          cases he : readEncodedStringBasic bytes part (CatSt.mk (o + 8) strs)
              with
          | error e => simp [he]
          | ok p =>
            simp only [he]
            cases hnext : next == u32MAX with
            | true =>
              have : next = u32MAX := by
                simpa using hnext
              simp [this]
            | false =>
              have hterm2 : segTerm bytes next k = true := by
                rw [hnext] at hterm
                simpa using hterm
              have hne : ¬ next = u32MAX := by
                intro hx
                rw [hx] at hnext
                simp at hnext
              simp only [if_neg hne]
              exact ih next hterm2 f (Nat.le_of_succ_le_succ hf) p.2.strings
                (parts ++ [p.1])

theorem segLoop_cyc (sep : Nat) :
    ∀ fuel parts, segLoop cycBytes sep fuel (CatSt.mk 0 []) parts = none := by
  have hstep : ∀ f parts, segLoop cycBytes sep (f + 1) (CatSt.mk 0 []) parts =
      segLoop cycBytes sep f (CatSt.mk 0 []) (parts ++ [[]]) := fun _ _ => rfl
  intro fuel
  induction fuel with
  | zero => intro parts; rfl
  | succ f ih =>
    intro parts
    rw [hstep]
    exact ih (parts ++ [[]])

/-- Claim C10 (implicit): `read_segmented_string` terminates whenever
following the `next_node_offset` chain reaches the sentinel (or a failing
read) after finitely many nodes — any fuel at least the chain length
suffices — and, having no cycle detection, it never terminates on a byte
input whose next-offset links form a cycle: on `cycBytes` the loop runs out
of any amount of fuel. -/
theorem read_segmented_string_termination :
    (∀ bytes sep o k, segTerm bytes o k = true → ∀ fuel, k ≤ fuel →
      ∀ uni st, (readSegmentedString bytes fuel o uni sep st).isSome = true) ∧
    (∀ fuel uni sep,
      readSegmentedString cycBytes fuel 0 uni sep (CatSt.mk 0 []) = none) := by
  constructor
  · intro bytes sep o k hterm fuel hf uni st
    exact segLoop_term bytes sep k o hterm fuel hf st.strings []
  · intro fuel uni sep
    exact segLoop_cyc sep fuel []

theorem read_segmented_string_termination_witness :
    (readSegmentedString [255, 255, 255, 255, 255, 255, 255, 255] 1 0 false 46
      (CatSt.mk 0 [])).isSome = true :=
  read_segmented_string_termination.1 [255, 255, 255, 255, 255, 255, 255, 255]
    46 0 1 (by decide) 1 (by decide) false (CatSt.mk 0 [])

/-- Claim C4 (amended): every sentinel-offset field decodes to its
documented absent value with the reader state untouched (no seek): the
empty string for encoded strings (the sentinel is never cached), the empty
array for offset arrays and `None` for v2 values; and with a sentinel
`object_offset`, five of the six known v2 types produce that type's default
value (0, 0, false, empty string, zeroed hash) while
`AssetBundleRequestOptions` produces `None` (absent) instead of a
default. -/
theorem decode_sentinel_defaults :
    (∀ bytes fuel sep st, lookupAssoc st.strings u32MAX = none →
      readEncodedStringSep bytes fuel u32MAX sep st = some (.ok ([], st))) ∧
    (∀ bytes st, readOffsetArray bytes u32MAX st = .ok ([], st)) ∧
    (∀ bytes fuel st, decodeV2 bytes fuel u32MAX st = some (.ok (none, st))) ∧
    (∀ bytes fuel offset st tno cls st3 mn,
      offset ≠ u32MAX →
      u32At bytes offset = some tno →
      u32At bytes (offset + 4) = some u32MAX →
      assemblyClassFromReader bytes fuel (CatSt.mk tno st.strings) =
        some (.ok (cls, st3)) →
      getMatchName cls = .ok mn →
      ((mn = mnInt →
        decodeV2 bytes fuel offset st = some (.ok (some (.int 0), st3))) ∧
       (mn = mnLong →
        decodeV2 bytes fuel offset st = some (.ok (some (.long 0), st3))) ∧
       (mn = mnBool →
        decodeV2 bytes fuel offset st = some (.ok (some (.boolean false), st3))) ∧
       (mn = mnString →
        decodeV2 bytes fuel offset st = some (.ok (some (.str []), st3))) ∧
       (mn = mnHash →
        decodeV2 bytes fuel offset st =
          some (.ok (some (.hash (Hash128M.mk 0 0 0 0)), st3))) ∧
       (mn = mnAbro →
        decodeV2 bytes fuel offset st = some (.ok (none, st3))))) := by
  refine ⟨?_, ?_, ?_, ?_⟩
  · intro bytes fuel sep st hcache
    unfold readEncodedStringSep
    rw [hcache]
    simp
  · intro bytes st
    simp [readOffsetArray]
  · intro bytes fuel st
    simp [decodeV2]
  · intro bytes fuel offset st tno cls st3 mn hoff h1 h2 hacr hmn
    have hread1 : readU32 bytes (CatSt.mk offset st.strings) =
        .ok (tno, CatSt.mk (offset + 4) st.strings) := by
      simp [readU32, h1]
    have hread2 : readU32 bytes (CatSt.mk (offset + 4) st.strings) =
        .ok (u32MAX, CatSt.mk (offset + 4 + 4) st.strings) := by
      simp [readU32, h2]
    have heq : decodeV2 bytes fuel offset st =
        (if mn = mnInt then some (.ok (some (.int 0), st3))
         else if mn = mnLong then some (.ok (some (.long 0), st3))
         else if mn = mnBool then some (.ok (some (.boolean false), st3))
         else if mn = mnString then some (.ok (some (.str []), st3))
         else if mn = mnHash then
           some (.ok (some (.hash (Hash128M.mk 0 0 0 0)), st3))
         else if mn = mnAbro then some (.ok (none, st3))
         else some (.error .unsupportedType)) := by
      unfold decodeV2
      rw [if_neg hoff]
      simp only [seekCat, hread1, hread2, hacr, hmn]
      simp
    refine ⟨?_, ?_, ?_, ?_, ?_, ?_⟩
    · intro h
      rw [heq, h, if_pos rfl]
    · intro h
      rw [heq, h, if_neg (by decide), if_pos rfl]
    · intro h
      rw [heq, h, if_neg (by decide), if_neg (by decide), if_pos rfl]
    · intro h
      rw [heq, h, if_neg (by decide), if_neg (by decide), if_neg (by decide),
        if_pos rfl]
    · intro h
      rw [heq, h, if_neg (by decide), if_neg (by decide), if_neg (by decide),
        if_neg (by decide), if_pos rfl]
    · intro h
      rw [heq, h, if_neg (by decide), if_neg (by decide), if_neg (by decide),
        if_neg (by decide), if_neg (by decide), if_pos rfl]

/-- A v2 value record at offset 0 tagged `System.Int32` with a sentinel
object offset: `(type_name_offset = 8, object_offset = sentinel)`, the
`AssemblyClass` record at 8 pointing at the basic strings
`"mscorlib, v"` (offset 20) and `"System.Int32"` (offset 35). -/
def catalogIntBytes : Bytes :=
  [8, 0, 0, 0] ++ [255, 255, 255, 255] ++ [20, 0, 0, 0] ++ [35, 0, 0, 0] ++
    [11, 0, 0, 0] ++ asciiBytes "mscorlib, v" ++ [12, 0, 0, 0] ++
    asciiBytes "System.Int32"

theorem decode_sentinel_defaults_witness :
    decodeV2 catalogIntBytes 1 0 (CatSt.mk 0 []) =
      some (.ok (some (.int 0), CatSt.mk 47
        [(20, asciiBytes "mscorlib, v"), (35, asciiBytes "System.Int32")])) :=
  (decode_sentinel_defaults.2.2.2 catalogIntBytes 1 0 (CatSt.mk 0 []) 8
    (AssemblyClassM.mk (asciiBytes "mscorlib, v") (asciiBytes "System.Int32"))
    (CatSt.mk 47 [(20, asciiBytes "mscorlib, v"), (35, asciiBytes "System.Int32")])
    mnInt (by decide) (by decide) (by decide) (by decide) (by decide)).1 rfl

/-- A v2 value record at offset 0 tagged `AssetBundleRequestOptions` with a
sentinel object offset; the assembly string (offset 20) and the class
string (offset 48) resolve the type to the known ABRO match name. -/
def catalogAbroBytes : Bytes :=
  [8, 0, 0, 0] ++ [255, 255, 255, 255] ++ [20, 0, 0, 0] ++ [48, 0, 0, 0] ++
    [24, 0, 0, 0] ++ asciiBytes "Unity.ResourceManager, v" ++ [74, 0, 0, 0] ++
    asciiBytes
      "UnityEngine.ResourceManagement.ResourceProviders.AssetBundleRequestOptions"

set_option maxRecDepth 16384 in
/-- Claim C4 counterexample: a sentinel `object_offset` on a value of the
sixth known type, `AssetBundleRequestOptions`, decodes to `None` (absent)
— not to a default value of the type, contradicting the claim for that
type. -/
theorem decode_abro_sentinel_absent :
    decodeV2 catalogAbroBytes 1 0 (CatSt.mk 0 []) =
      some (.ok (none, CatSt.mk 122
        [(20, asciiBytes "Unity.ResourceManager, v"),
         (48, asciiBytes
           "UnityEngine.ResourceManagement.ResourceProviders.AssetBundleRequestOptions")])) ∧
    (∀ v : ValueM, (none : Option ValueM) ≠ some v) := by
  refine ⟨by decide, ?_⟩
  intro v h
  cases h

end RabexEnv
